import Mathlib

/-!
# SmartX-Study `static/js/main.js`: utilities verified against their description

A shallow embedding of the utility functions exported as `window.SmartXUtils`
(`showNotification` lookups, `debounce`, `throttle`, `showLoading`/`hideLoading`,
`saveToStorage`/`loadFromStorage`) together with the host facilities they call
(property lookup on object literals, timers, `dataset`, `innerHTML`, `localStorage`,
`JSON`). What `innerHTML`, `localStorage` and `JSON` do is the browser's, so the
functions that use them take them as they come, with nothing assumed.

JavaScript strings are embedded as Lean `String`s, timestamps and delays as `Nat`
milliseconds.
-/

namespace SmartX

/-! ## Property lists -/

/-- A property write on a property list: overwrite the value of an existing key in
place, else add the property at the end. -/
def assocSet {β : Type} : List (String × β) → String → β → List (String × β)
  | [], name, value => [(name, value)]
  | (k, v) :: rest, name, value =>
    if k = name then (k, value) :: rest else (k, v) :: assocSet rest name value

/-! ## Property reads on object literals and the `||` operator -/

/-- Value produced by reading a property of an object literal whose own properties
all hold strings: an own string, a member inherited from `Object.prototype`
(a function object, or the prototype object for `__proto__`), or `undefined`. -/
inductive JSProp where
  | str (s : String)
  | inherited (name : String)
  | undefined
deriving DecidableEq, Repr

/-- Property names every object literal inherits from `Object.prototype`. -/
def objectPrototypeKeys : List String :=
  ["constructor", "__defineGetter__", "__defineSetter__", "hasOwnProperty",
   "__lookupGetter__", "__lookupSetter__", "isPrototypeOf", "propertyIsEnumerable",
   "toString", "valueOf", "__proto__", "toLocaleString"]

/-- The read `obj[key]` on an object literal with own properties `own`: own properties
first, then the prototype chain, else `undefined`. -/
def getProp (own : List (String × String)) (key : String) : JSProp :=
  match own.lookup key with
  | some v => .str v
  | none => if key ∈ objectPrototypeKeys then .inherited key else .undefined

/-- JavaScript truthiness: the empty string and `undefined` are falsy, objects are truthy. -/
def JSProp.truthy : JSProp → Bool
  | .str s => s ≠ ""
  | .inherited _ => true
  | .undefined => false

/-- The expression `a || b`. -/
def JSProp.or (a b : JSProp) : JSProp :=
  if a.truthy then a else b

/-! ## Notifications (`main.js` lines 202-220) -/

/-- The literal `colors` of `getNotificationColor`. -/
def colors : List (String × String) :=
  [("success", "green"), ("error", "red"), ("warning", "yellow"), ("info", "blue")]

/-- The literal `icons` of `getNotificationIcon`. -/
def icons : List (String × String) :=
  [("success", "check-circle"), ("error", "exclamation-triangle"),
   ("warning", "exclamation-circle"), ("info", "info-circle")]

/-- `return colors[type] || 'blue';` -/
def getNotificationColor (type : String) : JSProp :=
  (getProp colors type).or (.str "blue")

/-- `return icons[type] || 'info-circle';` -/
def getNotificationIcon (type : String) : JSProp :=
  (getProp icons type).or (.str "info-circle")

/-- The colour/icon pair the description assigns to a severity string. -/
def describedPair (s : String) : JSProp × JSProp :=
  if s = "success" then (.str "green", .str "check-circle")
  else if s = "error" then (.str "red", .str "exclamation-triangle")
  else if s = "warning" then (.str "yellow", .str "exclamation-circle")
  else (.str "blue", .str "info-circle")

/-! ## Loading states (`main.js` lines 249-260) -/

/-- The `dataset` of an element: its `data-*` attributes in attribute order. -/
abbrev DOMStringMap := List (String × String)

/-- The read `dataset[name]`; `none` is `undefined`. -/
def DOMStringMap.get (d : DOMStringMap) (name : String) : Option String :=
  d.lookup name

/-- The write `dataset[name] = value`: overwrite the attribute when present, else add it. -/
def DOMStringMap.set (d : DOMStringMap) (name value : String) : DOMStringMap :=
  assocSet d name value

/-- The statement `delete dataset[name]`; deleting a missing name is a no-op. -/
def DOMStringMap.delete (d : DOMStringMap) (name : String) : DOMStringMap :=
  d.filter (fun kv => kv.1 ≠ name)

/-- The part of a DOM element the loading toggle touches. `N` is the type of the
element's child-node lists. What `innerHTML` does depends on the element and belongs to
the browser, so it comes with the element: `parse` is the fragment parsing the
`innerHTML` setter performs in the context of this element, `serialize` the fragment
serialisation its getter performs. Nothing is assumed of them. -/
structure Element (N : Type) where
  children : N
  disabled : Bool
  dataset : DOMStringMap
  parse : String → N
  serialize : N → String

/-- The read `element.innerHTML`. -/
def Element.innerHTML {N : Type} (element : Element N) : String :=
  element.serialize element.children

/-- The assignment `element.innerHTML = markup`. -/
def Element.setInnerHTML {N : Type} (element : Element N) (markup : String) : Element N :=
  { element with children := element.parse markup }

/-- The markup `showLoading` installs. -/
def loadingMarkup : String :=
  "<i class=\"fas fa-spinner fa-spin mr-2\"></i>Loading..."

/-- The expression `v || dflt` for `v` a string or `undefined`. -/
def orDefault (v : Option String) (dflt : String) : String :=
  match v with
  | some s => if s = "" then dflt else s
  | none => dflt

/-- The function `showLoading(element)`. -/
def showLoading {N : Type} (element : Element N) : Element N :=
  let originalContent := element.innerHTML
  let element := element.setInnerHTML loadingMarkup
  let element := { element with disabled := true }
  { element with dataset := element.dataset.set "originalContent" originalContent }

/-- The function `hideLoading(element)`. -/
def hideLoading {N : Type} (element : Element N) : Element N :=
  let element :=
    element.setInnerHTML (orDefault (element.dataset.get "originalContent") "Submit")
  let element := { element with disabled := false }
  { element with dataset := element.dataset.delete "originalContent" }

/-- Calling `showLoading` `n` times in a row. -/
def showLoadingTimes {N : Type} : Nat → Element N → Element N
  | 0, element => element
  | n + 1, element => showLoadingTimes n (showLoading element)

/-- A `<button>` with the given content, enabled, with no `data-*` attribute. Its
children are represented by their serialisation, and assigned markup is kept as it is:
this is what the browser does for markup already in serialised form, as are the strings
assigned to it below (text without `&`, `<` or `>`, and the loading markup). -/
def button (content : String) : Element String :=
  { children := content, disabled := false, dataset := [], parse := id, serialize := id }

/-- An `<input type="submit">`, enabled, with no `data-*` attribute: a void element,
whose `innerHTML` reads as the empty string whatever was assigned to it. -/
def submitInput : Element String :=
  { children := "", disabled := false, dataset := [], parse := id,
    serialize := fun _ => "" }

/-! ## Timers: `setTimeout` / `clearTimeout` with an explicit clock -/

/-- A scheduled timer: its handle, the time at which it becomes due, and its callback
(represented by the data the callback closure captured). -/
structure Timer (κ : Type) where
  id : Nat
  due : Nat
  callback : κ
deriving DecidableEq, Repr

/-- The page a wrapper closure lives in: the clock (ms), the timer table, and the
variables captured by the closure. -/
structure Page (κ S : Type) where
  now : Nat
  nextId : Nat
  pending : List (Timer κ)
  vars : S
deriving DecidableEq, Repr

/-- The call `setTimeout(cb, delay)`: returns the new handle. -/
def Page.setTimeout {κ S : Type} (p : Page κ S) (cb : κ) (delay : Nat) : Nat × Page κ S :=
  (p.nextId,
    { p with nextId := p.nextId + 1, pending := p.pending ++ [⟨p.nextId, p.now + delay, cb⟩] })

/-- The call `clearTimeout(handle)`; `none` is `undefined`, for which nothing happens. -/
def Page.clearTimeout {κ S : Type} (p : Page κ S) (handle : Option Nat) : Page κ S :=
  match handle with
  | none => p
  | some i => { p with pending := p.pending.filter (fun t => t.id ≠ i) }

/-- The timer that runs first among `ts`: the earliest due, the earliest scheduled
among equally due ones. -/
def earliest {κ : Type} : List (Timer κ) → Option (Timer κ)
  | [] => none
  | t :: ts =>
    match earliest ts with
    | none => some t
    | some b => if b.due < t.due then some b else some t

/-- The event loop running, in order, the timers that are due up to time `target`.
`run` is the effect of a callback; `fuel` bounds the number of timers run. -/
def Page.runDue {κ S : Type} (run : κ → Page κ S → Page κ S) :
    Nat → Nat → Page κ S → Page κ S
  | 0, _, p => p
  | fuel + 1, target, p =>
    match earliest p.pending with
    | none => p
    | some t =>
      if t.due ≤ target then
        Page.runDue run fuel target
          (run t.callback
            { p with now := max p.now t.due, pending := p.pending.filter (fun u => u.id ≠ t.id) })
      else p

/-- Let `d` ms pass with no other activity: every timer due by then has run, so a timer
due at time `t` has run before anything that happens at time `t` or later (the
callbacks here schedule no timers, so one round per pending timer suffices). -/
def Page.advance {κ S : Type} (run : κ → Page κ S → Page κ S) (d : Nat) (p : Page κ S) :
    Page κ S :=
  let target := p.now + d
  { Page.runDue run p.pending.length target p with now := target }

/-! ## `debounce` (`main.js` lines 223-233) -/

/-- Variables of one `debounce(func, wait)` closure: `timeout`, and the log of the calls
`func(...args)` made so far. -/
structure DebounceVars (α : Type) where
  timeout : Option Nat
  invoked : List α
deriving DecidableEq, Repr

/-- A page holding one debounced wrapper; a timer callback `later` is identified by the
`args` it captured. -/
abbrev Debounced (α : Type) := Page α (DebounceVars α)

/-- The state right after `debounce(func, wait)` returned: `timeout` is `undefined`. -/
def debounce {α : Type} (now nextId : Nat) : Debounced α :=
  { now := now, nextId := nextId, pending := [], vars := { timeout := none, invoked := [] } }

/-- The callback `later`: `clearTimeout(timeout); func(...args);`. -/
def later {α : Type} (args : α) (p : Debounced α) : Debounced α :=
  let p := p.clearTimeout p.vars.timeout
  { p with vars := { p.vars with invoked := p.vars.invoked ++ [args] } }

/-- The wrapper `executedFunction(...args)`:
`clearTimeout(timeout); timeout = setTimeout(later, wait);`. -/
def executedFunction {α : Type} (wait : Nat) (p : Debounced α) (args : α) : Debounced α :=
  let p := p.clearTimeout p.vars.timeout
  let r := p.setTimeout args wait
  { r.2 with vars := { r.2.vars with timeout := some r.1 } }

/-- A wrapper call made `c.1` ms after the previous activity, with arguments `c.2`. -/
def debounceStep {α : Type} (wait : Nat) (p : Debounced α) (c : Nat × α) : Debounced α :=
  executedFunction wait (Page.advance later c.1 p) c.2

/-- A first wrapper call with `a0` on a fresh wrapper followed by the calls `rest`. -/
def debounceRun {α : Type} (wait now nextId : Nat) (a0 : α) (rest : List (Nat × α)) :
    Debounced α :=
  rest.foldl (debounceStep wait) (executedFunction wait (debounce now nextId) a0)

/-- Arguments of the last call of the sequence `a0, rest`. -/
def lastArgs {α : Type} (a0 : α) (rest : List (Nat × α)) : α :=
  match rest.getLast? with
  | none => a0
  | some c => c.2

/-- State of a debounced wrapper whose last call, with `a`, was made at the current
time: one timer is pending for `a`, due `wait` later, and `func` has not run. -/
def Armed {α : Type} (wait : Nat) (a : α) (p : Debounced α) : Prop :=
  ∃ id, p.pending = [⟨id, p.now + wait, a⟩] ∧ p.vars.timeout = some id ∧ p.vars.invoked = []

/-! ## `throttle` (`main.js` lines 235-246) -/

/-- Variables of one `throttle(func, limit)` closure: `inThrottle` (`undefined`, falsy,
at first), and the log of the calls `func.apply(context, args)` made so far, each with
its time. -/
structure ThrottleVars (α : Type) where
  inThrottle : Bool
  invoked : List (Nat × α)
deriving DecidableEq, Repr

/-- A page holding one throttled wrapper; its only timer callback is
`() => inThrottle = false`. -/
abbrev Throttled (α : Type) := Page Unit (ThrottleVars α)

/-- The state right after `throttle(func, limit)` returned. -/
def throttle {α : Type} (now nextId : Nat) : Throttled α :=
  { now := now, nextId := nextId, pending := [], vars := { inThrottle := false, invoked := [] } }

/-- The timer callback `() => inThrottle = false`. -/
def resetThrottle {α : Type} (_ : Unit) (p : Throttled α) : Throttled α :=
  { p with vars := { p.vars with inThrottle := false } }

/-- The wrapper returned by `throttle(func, limit)`, called with `args`: the outcome of
the call (an `error` is an exception that leaves the wrapper) and the state after it.
`func args` is the outcome of `func.apply(context, args)`; when it raises, the two
statements after it, `inThrottle = true` and the `setTimeout`, do not run. -/
def throttled {α ε : Type} (func : α → Except ε Unit) (limit : Nat) (p : Throttled α)
    (args : α) : Except ε Unit × Throttled α :=
  if !p.vars.inThrottle then
    let p := { p with vars := { p.vars with invoked := p.vars.invoked ++ [(p.now, args)] } }
    match func args with
    | .error e => (.error e, p)
    | .ok _ =>
      let p := { p with vars := { p.vars with inThrottle := true } }
      (.ok (), (p.setTimeout () limit).2)
  else (.ok (), p)

/-- What happens on the page between two wrapper calls: `d` ms pass while no timer task
runs (the running task goes on, or the event loop is busy with other tasks), or the event
loop runs the timer tasks that are due. A timer thus runs at its due time or later, never
earlier. -/
inductive Idle where
  | elapse (d : Nat)
  | timers
deriving DecidableEq, Repr

/-- The effect of what happens between two calls; `run` is the effect of a callback. -/
def Page.idle {κ S : Type} (run : κ → Page κ S → Page κ S) (p : Page κ S) :
    Idle → Page κ S
  | .elapse d => { p with now := p.now + d }
  | .timers => Page.runDue run p.pending.length p.now p

/-- The time that passes in a sequence of such steps. -/
def elapsed : List Idle → Nat
  | [] => 0
  | .elapse d :: rest => d + elapsed rest
  | .timers :: rest => elapsed rest

/-- A wrapper call with arguments `c.2`, made after the steps `c.1`. -/
def throttleStep {α ε : Type} (func : α → Except ε Unit) (limit : Nat) (p : Throttled α)
    (c : List Idle × α) : Throttled α :=
  (throttled func limit (c.1.foldl (Page.idle resetThrottle) p) c.2).2

/-- The calls `calls` on a fresh wrapper. -/
def throttleRun {α ε : Type} (func : α → Except ε Unit) (limit now nextId : Nat)
    (calls : List (List Idle × α)) : Throttled α :=
  calls.foldl (throttleStep func limit) (throttle now nextId)

/-- The state reached by the calls `calls` on a fresh wrapper followed by the steps
`idles`. -/
def throttleReach {α ε : Type} (func : α → Except ε Unit) (limit now nextId : Nat)
    (calls : List (List Idle × α)) (idles : List Idle) : Throttled α :=
  idles.foldl (Page.idle resetThrottle) (throttleRun func limit now nextId calls)

/-- Time between the first and the last call of a sequence. -/
def duration {α : Type} : List (List Idle × α) → Nat
  | [] => 0
  | _ :: rest => (rest.map (fun c => elapsed c.1)).sum

/-- The integer `ceil(d / limit)`. -/
def ceilDiv (d limit : Nat) : Nat :=
  (d + limit - 1) / limit

/-- Whether `func` returns normally on `args`. -/
def returns {α ε : Type} (func : α → Except ε Unit) (args : α) : Bool :=
  match func args with
  | .ok _ => true
  | .error _ => false

/-- The invocations of a log in which `func` returned normally. -/
def returned {α ε : Type} (func : α → Except ε Unit) (log : List (Nat × α)) :
    List (Nat × α) :=
  log.filter (fun e => returns func e.2)

/-- Time of the most recent invocation of a log in which `func` returned normally. -/
def lastReturned {α ε : Type} (func : α → Except ε Unit) (log : List (Nat × α)) :
    Option Nat :=
  (returned func log).getLast?.map Prod.fst

/-- State of a throttled wrapper with respect to `last`, the time of the most recent
invocation that returned normally (`none` if there is none): before any, the flag
`inThrottle` is unset and no timer is pending; after one, either the flag is set and the
reset timer, due `limit` ms after it, is pending, or that timer has run, at its due time
or later, and the flag is unset. -/
def CoolingAt {α : Type} (limit : Nat) (last : Option Nat) (p : Throttled α) : Prop :=
  match last with
  | none => p.vars.inThrottle = false ∧ p.pending = []
  | some t =>
    t ≤ p.now
      ∧ ((p.vars.inThrottle = true ∧ ∃ id, p.pending = [⟨id, t + limit, ()⟩])
        ∨ (p.vars.inThrottle = false ∧ p.pending = [] ∧ t + limit ≤ p.now))

/-- The state of a throttled wrapper agrees with its log. -/
def Cooling {α ε : Type} (func : α → Except ε Unit) (limit : Nat) (p : Throttled α) :
    Prop :=
  CoolingAt limit (lastReturned func p.vars.invoked) p

/-- The invocations that returned normally are `limit` ms apart: the most recent one is
at least `(k - 1) * limit` ms after time `first`, `k` being their number, and the clock
has not gone back before `first`. -/
def Spaced {α ε : Type} (func : α → Except ε Unit) (limit first : Nat) (p : Throttled α) :
    Prop :=
  first ≤ p.now
    ∧ ∀ t, lastReturned func p.vars.invoked = some t →
      ((returned func p.vars.invoked).length - 1) * limit + first ≤ t

/-! ## JSON values and `JSON.stringify` -/

/-- The JSON values of the concrete host `browser` below: a tree of `null`, booleans,
numbers, strings, arrays and objects. Its numbers are the safe integers (see
`JSON.wellFormed`); numbers with a fraction are not among its values. An object is the
list of its own properties in enumeration order. -/
inductive JSON where
  | null
  | bool (b : Bool)
  | num (n : Int)
  | str (s : String)
  | arr (items : List JSON)
  | obj (members : List (String × JSON))

mutual
/-- A value stands for a JavaScript value when every number in it is a safe integer
(of magnitude below 2^53, so that it is a JavaScript number and is written with all its
digits) and no object in it lists a key twice. -/
def JSON.wellFormed : JSON → Bool
  | .null => true
  | .bool _ => true
  | .num n => decide (n.natAbs < 2 ^ 53)
  | .str _ => true
  | .arr items => JSON.wellFormedItems items
  | .obj members =>
    decide (members.map Prod.fst).Nodup && JSON.wellFormedMembers members
/-- All the values of a list are well formed. -/
def JSON.wellFormedItems : List JSON → Bool
  | [] => true
  | v :: vs => JSON.wellFormed v && JSON.wellFormedItems vs
/-- All the property values of a list are well formed. -/
def JSON.wellFormedMembers : List (String × JSON) → Bool
  | [] => true
  | (_, v) :: ms => JSON.wellFormed v && JSON.wellFormedMembers ms
end

/-- The character of a decimal digit. -/
def digitChar (d : Nat) : Char :=
  Char.ofNat (48 + d)

/-- The character of a hexadecimal digit, in lower case. -/
def hexChar (d : Nat) : Char :=
  if d < 10 then Char.ofNat (48 + d) else Char.ofNat (87 + d)

/-- Decimal digits of `n`, most significant first; `fuel` bounds the digit count. -/
def decimalAux : Nat → Nat → List Char
  | 0, _ => []
  | fuel + 1, n =>
    if n < 10 then [digitChar n] else decimalAux fuel (n / 10) ++ [digitChar (n % 10)]

/-- Decimal numeral of a natural number. -/
def decimal (n : Nat) : List Char :=
  decimalAux (n + 1) n

/-- `Number::toString` on a safe integer: an optional sign and all the digits. -/
def numberToString : Int → List Char
  | .ofNat n => decimal n
  | .negSucc n => '-' :: decimal (n + 1)

/-- One character as `QuoteJSONString` writes it. -/
def quoteChar (c : Char) : List Char :=
  if c = '"' then ['\\', '"']
  else if c = '\\' then ['\\', '\\']
  else if c = '\x08' then ['\\', 'b']
  else if c = '\x0c' then ['\\', 'f']
  else if c = '\n' then ['\\', 'n']
  else if c = '\r' then ['\\', 'r']
  else if c = '\t' then ['\\', 't']
  else if c.toNat < 32 then
    ['\\', 'u', '0', '0', hexChar (c.toNat / 16), hexChar (c.toNat % 16)]
  else [c]

/-- The characters of a string between the quotes, as `QuoteJSONString` writes them. -/
def quoteChars : List Char → List Char
  | [] => []
  | c :: cs => quoteChar c ++ quoteChars cs

/-- `QuoteJSONString`. -/
def quoteJSONString (s : String) : List Char :=
  '"' :: quoteChars s.data ++ ['"']

mutual
/-- `SerializeJSONProperty` with an empty gap: the text of a value. -/
def serialize : JSON → List Char
  | .null => ['n', 'u', 'l', 'l']
  | .bool true => ['t', 'r', 'u', 'e']
  | .bool false => ['f', 'a', 'l', 's', 'e']
  | .num n => numberToString n
  | .str s => quoteJSONString s
  | .arr items => '[' :: serializeItems items ++ [']']
  | .obj members => '{' :: serializeMembers members ++ ['}']
/-- The elements of an array, separated by commas. -/
def serializeItems : List JSON → List Char
  | [] => []
  | [v] => serialize v
  | v :: w :: vs => serialize v ++ ',' :: serializeItems (w :: vs)
/-- The properties of an object, separated by commas. -/
def serializeMembers : List (String × JSON) → List Char
  | [] => []
  | [(k, v)] => quoteJSONString k ++ ':' :: serialize v
  | (k, v) :: m :: ms =>
    quoteJSONString k ++ ':' :: serialize v ++ ',' :: serializeMembers (m :: ms)
end

/-- `JSON.stringify(value)` for a JSON-serialisable value. -/
def jsonStringify (value : JSON) : String :=
  String.mk (serialize value)

/-! ## `JSON.parse` -/

/-- JSON whitespace: tab, line feed, carriage return, space. -/
def isWhitespace (c : Char) : Bool :=
  c = '\t' || c = '\n' || c = '\r' || c = ' '

/-- Drop leading JSON whitespace. -/
def skipWhitespace : List Char → List Char
  | [] => []
  | c :: cs => if isWhitespace c then skipWhitespace cs else c :: cs

/-- Read the literal `lit` off the front of the text. -/
def expect : List Char → List Char → Option (List Char)
  | [], cs => some cs
  | _ :: _, [] => none
  | l :: ls, c :: cs => if l = c then expect ls cs else none

/-- Whether a character is a decimal digit. -/
def isDigit (c : Char) : Bool :=
  48 ≤ c.toNat && c.toNat ≤ 57

/-- Read the digits at the front of the text onto the value `acc`. -/
def readDigits : Nat → List Char → Nat × List Char
  | acc, [] => (acc, [])
  | acc, c :: cs =>
    if isDigit c then readDigits (acc * 10 + (c.toNat - 48)) cs else (acc, c :: cs)

/-- The integer part of a number token: `0`, or a non-zero digit followed by digits. -/
def parseDigits : List Char → Option (Nat × List Char)
  | [] => none
  | c :: cs =>
    if c = '0' then some (0, cs)
    else if isDigit c then some (readDigits (c.toNat - 48) cs)
    else none

/-- A number token of the integral form `-? (0 | [1-9][0-9]*)`. Tokens that go on with a
fraction or an exponent, which `JSON.parse` also reads, denote numbers that are in
general not among the values of `JSON`; this host has no value for them and reports them
as unreadable. -/
def parseNumber (cs : List Char) : Option (Int × List Char) :=
  let signed : Option (Int × List Char) :=
    match cs with
    | [] => none
    | c :: rest =>
      if c = '-' then
        match parseDigits rest with
        | none => none
        | some (n, r) => some (-(n : Int), r)
      else
        match parseDigits cs with
        | none => none
        | some (n, r) => some ((n : Int), r)
  match signed with
  | none => none
  | some (n, []) => some (n, [])
  | some (n, c :: r) => if c = '.' || c = 'e' || c = 'E' then none else some (n, c :: r)

/-- Value of a hexadecimal digit. -/
def hexValue (c : Char) : Option Nat :=
  if 48 ≤ c.toNat && c.toNat ≤ 57 then some (c.toNat - 48)
  else if 97 ≤ c.toNat && c.toNat ≤ 102 then some (c.toNat - 87)
  else if 65 ≤ c.toNat && c.toNat ≤ 70 then some (c.toNat - 55)
  else none

/-- Value of four hexadecimal digits. -/
def hex4 (a b c d : Char) : Option Nat :=
  match hexValue a, hexValue b, hexValue c, hexValue d with
  | some a, some b, some c, some d => some (((a * 16 + b) * 16 + c) * 16 + d)
  | _, _, _, _ => none

/-- The character a single-character escape `\e` stands for. -/
def unescape (e : Char) : Option Char :=
  if e = '"' then some '"'
  else if e = '\\' then some '\\'
  else if e = '/' then some '/'
  else if e = 'b' then some '\x08'
  else if e = 'f' then some '\x0c'
  else if e = 'n' then some '\n'
  else if e = 'r' then some '\r'
  else if e = 't' then some '\t'
  else none

/-- An item of a string token: a character written as itself or by a single-character
escape, or the code unit of a `\uXXXX` escape. -/
inductive StringItem where
  | char (c : Char)
  | unit (n : Nat)
deriving DecidableEq, Repr

/-- The items of a string token up to its closing quote, and the text after it.
Unescaped control characters are not allowed. -/
def parseStringItems : List Char → Option (List StringItem × List Char)
  | [] => none
  | c :: rest =>
    if c = '"' then some ([], rest)
    else if c = '\\' then
      match rest with
      | [] => none
      | e :: rest1 =>
        if e = 'u' then
          match rest1 with
          | h1 :: h2 :: h3 :: h4 :: rest2 =>
            match hex4 h1 h2 h3 h4 with
            | none => none
            | some n =>
              match parseStringItems rest2 with
              | none => none
              | some (items, r) => some (.unit n :: items, r)
          | _ => none
        else
          match unescape e with
          | none => none
          | some ch =>
            match parseStringItems rest1 with
            | none => none
            | some (items, r) => some (.char ch :: items, r)
    else if c.toNat < 32 then none
    else
      match parseStringItems rest with
      | none => none
      | some (items, r) => some (.char c :: items, r)

/-- The characters of a string value from the items of its token: a high surrogate
followed by a low surrogate is one character; a surrogate on its own has no
counterpart among Lean characters and is rendered as U+FFFD. -/
def decodeItems : List StringItem → List Char
  | [] => []
  | .char c :: rest => c :: decodeItems rest
  | [.unit n] => [if 0xD800 ≤ n ∧ n < 0xE000 then Char.ofNat 0xFFFD else Char.ofNat n]
  | .unit n :: .char c :: rest =>
    (if 0xD800 ≤ n ∧ n < 0xE000 then Char.ofNat 0xFFFD else Char.ofNat n)
      :: c :: decodeItems rest
  | .unit n :: .unit m :: rest =>
    if 0xD800 ≤ n ∧ n < 0xDC00 ∧ 0xDC00 ≤ m ∧ m < 0xE000 then
      Char.ofNat (0x10000 + (n - 0xD800) * 0x400 + (m - 0xDC00)) :: decodeItems rest
    else
      (if 0xD800 ≤ n ∧ n < 0xE000 then Char.ofNat 0xFFFD else Char.ofNat n)
        :: decodeItems (.unit m :: rest)

/-- A string token after its opening quote. -/
def parseString (cs : List Char) : Option (String × List Char) :=
  match parseStringItems cs with
  | none => none
  | some (items, r) => some (String.mk (decodeItems items), r)

/-- The object defined by properties in text order: a repeated key keeps its first
position and takes the last value. -/
def buildObject (members : List (String × JSON)) : List (String × JSON) :=
  members.foldl (fun acc kv => assocSet acc kv.1 kv.2) []

mutual
/-- A JSON value at the front of the text, and the text after it. -/
def parseValue : Nat → List Char → Option (JSON × List Char)
  | 0, _ => none
  | fuel + 1, cs =>
    match skipWhitespace cs with
    | [] => none
    | c :: rest =>
      if c = 'n' then
        match expect ['u', 'l', 'l'] rest with
        | none => none
        | some r => some (.null, r)
      else if c = 't' then
        match expect ['r', 'u', 'e'] rest with
        | none => none
        | some r => some (.bool true, r)
      else if c = 'f' then
        match expect ['a', 'l', 's', 'e'] rest with
        | none => none
        | some r => some (.bool false, r)
      else if c = '"' then
        match parseString rest with
        | none => none
        | some (s, r) => some (.str s, r)
      else if c = '[' then
        match skipWhitespace rest with
        | [] => none
        | c1 :: r1 =>
          if c1 = ']' then some (.arr [], r1)
          else
            match parseElements fuel (c1 :: r1) with
            | none => none
            | some (items, r) => some (.arr items, r)
      else if c = '{' then
        match skipWhitespace rest with
        | [] => none
        | c1 :: r1 =>
          if c1 = '}' then some (.obj [], r1)
          else
            match parseMembers fuel (c1 :: r1) with
            | none => none
            | some (members, r) => some (.obj (buildObject members), r)
      else
        match parseNumber (c :: rest) with
        | none => none
        | some (n, r) => some (.num n, r)
/-- The elements of a non-empty array up to its closing bracket. -/
def parseElements : Nat → List Char → Option (List JSON × List Char)
  | 0, _ => none
  | fuel + 1, cs =>
    match parseValue fuel cs with
    | none => none
    | some (v, rest) =>
      match skipWhitespace rest with
      | [] => none
      | c :: r =>
        if c = ',' then
          match parseElements fuel r with
          | none => none
          | some (vs, r1) => some (v :: vs, r1)
        else if c = ']' then some ([v], r)
        else none
/-- The properties of a non-empty object up to its closing brace, in text order. -/
def parseMembers : Nat → List Char → Option (List (String × JSON) × List Char)
  | 0, _ => none
  | fuel + 1, cs =>
    match skipWhitespace cs with
    | [] => none
    | c :: rest =>
      if c = '"' then
        match parseString rest with
        | none => none
        | some (k, rest1) =>
          match skipWhitespace rest1 with
          | [] => none
          | c1 :: rest2 =>
            if c1 = ':' then
              match parseValue fuel rest2 with
              | none => none
              | some (v, rest3) =>
                match skipWhitespace rest3 with
                | [] => none
                | c3 :: rest4 =>
                  if c3 = ',' then
                    match parseMembers fuel rest4 with
                    | none => none
                    | some (ms, r) => some ((k, v) :: ms, r)
                  else if c3 = '}' then some ([(k, v)], rest4)
                  else none
            else none
      else none
end

/-- Exceptions the host facilities raise. -/
inductive JSError where
  | syntaxError
  | typeError
  | quotaExceededError
  | securityError
deriving DecidableEq, Repr

/-- `JSON.parse(text)`: a value surrounded by optional whitespace, else a
`SyntaxError`. The recursion depth never exceeds twice the length of the text. -/
def jsonParse (text : String) : Except JSError JSON :=
  match parseValue (2 * text.length + 2) text.data with
  | none => .error .syntaxError
  | some (v, rest) =>
    match skipWhitespace rest with
    | [] => .ok v
    | _ :: _ => .error .syntaxError

/-! ## Local storage helpers (`main.js` lines 271-287) -/

/-- The host facilities the storage helpers use: `JSON.stringify`, `JSON.parse`,
`localStorage.setItem` and `localStorage.getItem`, over JavaScript values of type `V` and
a store of type `σ`; each may raise. They belong to the browser, not to `main.js`, and
nothing is assumed of them. `null` is the value `null`; `stringify` yields `none` for
`undefined`. -/
structure Host (σ V : Type) where
  null : V
  stringify : V → Except JSError (Option String)
  parse : String → Except JSError V
  setItem : σ → String → String → Except JSError σ
  getItem : σ → String → Except JSError (Option String)

/-- What the helpers act on: the store behind `localStorage` and the console's warnings. -/
structure World (σ : Type) where
  storage : σ
  console : List (String × JSError)

/-- Conversion of `setItem`'s second argument to a string. -/
def toDOMString : Option String → String
  | some s => s
  | none => "undefined"

/-- The call `console.warn(message, e)`. -/
def consoleWarn {σ : Type} (w : World σ) (message : String) (e : JSError) :
    Except JSError (World σ) :=
  .ok { w with console := w.console ++ [(message, e)] }

/-- The function `saveToStorage(key, value)`; an `error` result is an exception that
reaches the caller. -/
def saveToStorage {σ V : Type} (h : Host σ V) (w : World σ) (key : String) (value : V) :
    Except JSError (World σ) :=
  let body : Except JSError σ :=
    match h.stringify value with
    | .error e => .error e
    | .ok text => h.setItem w.storage key (toDOMString text)
  match body with
  | .ok storage => .ok { w with storage := storage }
  | .error e => consoleWarn w "Could not save to localStorage:" e

/-- The function `loadFromStorage(key)`; an `error` result is an exception that
reaches the caller. -/
def loadFromStorage {σ V : Type} (h : Host σ V) (w : World σ) (key : String) :
    Except JSError (V × World σ) :=
  let body : Except JSError V :=
    match h.getItem w.storage key with
    | .error e => .error e
    | .ok none => .ok h.null
    | .ok (some item) => if item = "" then .ok h.null else h.parse item
  match body with
  | .ok v => .ok (v, w)
  | .error e =>
    match consoleWarn w "Could not load from localStorage:" e with
    | .error e1 => .error e1
    | .ok w1 => .ok (h.null, w1)

/-- The store of a working `localStorage`: its key/value pairs. -/
abbrev Storage := List (String × String)

/-- A host whose facilities work: `JSON.stringify` and `JSON.parse` as above, and a
`localStorage` that keeps what is written. -/
def browser : Host Storage JSON where
  null := .null
  stringify := fun v => .ok (some (jsonStringify v))
  parse := jsonParse
  setItem := fun st key value => .ok (assocSet st key value)
  getItem := fun st key => .ok (st.lookup key)

/-- A host in which everything raises or is unreadable: serialisation and writes raise,
the key `gone` is missing, reading the key `locked` raises, and the stored text is not
JSON. -/
def brokenHost : Host Unit JSON where
  null := .null
  stringify := fun _ => .error .typeError
  parse := fun _ => .error .syntaxError
  setItem := fun _ _ _ => .error .quotaExceededError
  getItem := fun _ key =>
    if key = "gone" then .ok none
    else if key = "locked" then .error .securityError
    else .ok (some "oops")

/-- A value with falsy and empty parts, used as an example. -/
def samplePrefs : JSON :=
  .obj [("falsy", .arr [.null, .bool false, .num 0, .str ""]),
    ("empty", .arr [.arr [], .obj []]), ("n", .num (-120)), ("s", .str "a\"\n\x01é")]

/-- The value `loadFromStorage(key)` returns after `saveToStorage(key, value)` in a
working browser; `none` if either call raised. -/
def savedThenLoaded (w : World Storage) (key : String) (value : JSON) : Option JSON :=
  match saveToStorage browser w key value with
  | .error _ => none
  | .ok w1 =>
    match loadFromStorage browser w1 key with
    | .error _ => none
    | .ok r => some r.1

/-- The value `loadFromStorage(key)` returns; `none` if the call raised. -/
def loaded (w : World Storage) (key : String) : Option JSON :=
  match loadFromStorage browser w key with
  | .error _ => none
  | .ok r => some r.1

end SmartX

/-! # Theorems -/

namespace SmartX

/-! ## Property lists -/

theorem lookup_assocSet_self {β : Type} (d : List (String × β)) (k : String) (v : β) :
    (assocSet d k v).lookup k = some v := by
  induction d with
  | nil => simp [assocSet, List.lookup]
  | cons kv rest ih =>
    obtain ⟨k1, v1⟩ := kv
    by_cases h : k1 = k
    · subst h
      simp [assocSet, List.lookup]
    · have h2 : (k == k1) = false := by
        simpa using fun e => h e.symm
      simp [assocSet, h, List.lookup, h2, ih]

theorem lookup_delete_self (d : DOMStringMap) (k : String) :
    DOMStringMap.get (DOMStringMap.delete d k) k = none := by
  induction d with
  | nil => rfl
  | cons kv rest ih =>
    obtain ⟨k1, v1⟩ := kv
    by_cases h : k1 = k
    · subst h
      simpa [DOMStringMap.get, DOMStringMap.delete, List.filter] using ih
    · have h2 : (k == k1) = false := by
        simpa using fun e => h e.symm
      simpa [DOMStringMap.get, DOMStringMap.delete, List.filter, h, List.lookup, h2] using ih

/-! ## Notifications -/

/-- For a severity that is not the name of a member of `Object.prototype`, the lookups
give the described colour/icon pair. -/
theorem notification_pair_of_own_or_unknown (s : String) (h : s ∉ objectPrototypeKeys) :
    (getNotificationColor s, getNotificationIcon s) = describedPair s := by
  by_cases h1 : s = "success"
  · subst h1; decide
  by_cases h2 : s = "error"
  · subst h2; decide
  by_cases h3 : s = "warning"
  · subst h3; decide
  by_cases h4 : s = "info"
  · subst h4; decide
  have e1 : (s == "success") = false := by simpa using h1
  have e2 : (s == "error") = false := by simpa using h2
  have e3 : (s == "warning") = false := by simpa using h3
  have e4 : (s == "info") = false := by simpa using h4
  simp [getNotificationColor, getNotificationIcon, getProp, colors, icons, List.lookup,
    describedPair, h1, h2, h3, h4, e1, e2, e3, e4, h, JSProp.or, JSProp.truthy]

/-- C7: for the severity string `constructor` the lookups do not give the info pair
(blue, info-circle): both reads find the member inherited from `Object.prototype`,
which is truthy, so the `||` default is not taken. -/
theorem notification_pair_constructor :
    (getNotificationColor "constructor", getNotificationIcon "constructor")
        = (JSProp.inherited "constructor", JSProp.inherited "constructor")
      ∧ (getNotificationColor "constructor", getNotificationIcon "constructor")
        ≠ describedPair "constructor" := by
  decide

/-! ## Loading states -/

theorem showLoading_children {N : Type} (el : Element N) :
    (showLoading el).children = el.parse loadingMarkup := rfl

theorem showLoading_innerHTML {N : Type} (el : Element N) :
    (showLoading el).innerHTML = el.serialize (el.parse loadingMarkup) := rfl

theorem showLoading_parse {N : Type} (el : Element N) :
    (showLoading el).parse = el.parse ∧ (showLoading el).serialize = el.serialize :=
  ⟨rfl, rfl⟩

theorem showLoading_recorded {N : Type} (el : Element N) :
    (showLoading el).dataset.get "originalContent" = some el.innerHTML := by
  simp [showLoading, Element.setInnerHTML, DOMStringMap.get, DOMStringMap.set,
    lookup_assocSet_self]

theorem hideLoading_children {N : Type} (el : Element N) :
    (hideLoading el).children
      = el.parse (orDefault (el.dataset.get "originalContent") "Submit") := rfl

theorem hideLoading_innerHTML {N : Type} (el : Element N) :
    (hideLoading el).innerHTML
      = el.serialize (el.parse (orDefault (el.dataset.get "originalContent") "Submit")) :=
  rfl

theorem showLoadingTimes_succ {N : Type} (n : Nat) (el : Element N) :
    showLoadingTimes (n + 1) el = showLoading (showLoadingTimes n el) := by
  induction n generalizing el with
  | zero => rfl
  | succ n ih =>
    show showLoadingTimes (n + 1) (showLoading el) = _
    rw [ih (showLoading el)]
    rfl

theorem showLoadingTimes_parse {N : Type} (n : Nat) (el : Element N) :
    (showLoadingTimes n el).parse = el.parse
      ∧ (showLoadingTimes n el).serialize = el.serialize := by
  induction n generalizing el with
  | zero => exact ⟨rfl, rfl⟩
  | succ n ih => exact ih (showLoading el)

/-- For non-empty content, `showLoading` then `hideLoading` assigns the content read
before back to `innerHTML`, enables the element and leaves nothing recorded; the content
then reads as before on an element whose `innerHTML` reads back that content when it is
assigned. -/
theorem show_hide_restores {N : Type} (el : Element N) (h : el.innerHTML ≠ "") :
    (hideLoading (showLoading el)).children = el.parse el.innerHTML
      ∧ (el.serialize (el.parse el.innerHTML) = el.innerHTML →
          (hideLoading (showLoading el)).innerHTML = el.innerHTML)
      ∧ (hideLoading (showLoading el)).disabled = false
      ∧ (hideLoading (showLoading el)).dataset.get "originalContent" = none := by
  have h1 : (hideLoading (showLoading el)).children = el.parse el.innerHTML := by
    rw [hideLoading_children, showLoading_recorded]
    simp [orDefault, h, (showLoading_parse el).1]
  refine ⟨h1, ?_, rfl, lookup_delete_self _ _⟩
  intro hr
  show (hideLoading (showLoading el)).serialize (hideLoading (showLoading el)).children = _
  rw [h1]
  exact hr

/-- C8: for an empty `<button>` (content the empty string, nothing recorded, enabled),
`showLoading` followed by `hideLoading` leaves the content `Submit`, not the empty
string: the recorded empty string is falsy, so the `||` default is taken. -/
theorem show_hide_empty_content :
    DOMStringMap.get (button "").dataset "originalContent" = none
      ∧ (button "").innerHTML = ""
      ∧ (hideLoading (showLoading (button ""))).innerHTML = "Submit"
      ∧ (hideLoading (showLoading (button ""))).innerHTML ≠ (button "").innerHTML := by
  decide

/-- C9, as stated, fails: on a `<button>` with content `Save` and nothing recorded, two
`showLoading` calls followed by one `hideLoading` leave the loading markup, not `Save`. -/
theorem reentrant_show_loses_content :
    DOMStringMap.get (button "Save").dataset "originalContent" = none
      ∧ (button "Save").innerHTML = "Save"
      ∧ 1 ≤ 2
      ∧ (hideLoading (showLoadingTimes 2 (button "Save"))).innerHTML = loadingMarkup
      ∧ (hideLoading (showLoadingTimes 2 (button "Save"))).innerHTML
        ≠ (button "Save").innerHTML := by
  decide

/-- C9, amended: for every element with nothing recorded and `n ≥ 1` calls of
`showLoading` in a row followed by one `hideLoading`. When `n = 1` and the content read
before is not empty, `hideLoading` assigns that content back to `innerHTML`, so the
content is restored on an element whose `innerHTML` reads it back when it is assigned.
When `n ≥ 2`, `hideLoading` assigns what `innerHTML` read after the loading markup was
installed (every call records the content it finds), or `Submit` where that read is
empty; on an element whose `innerHTML` reads the loading markup back, the content is
then the loading markup, not the original content. -/
theorem show_times_hide {N : Type} (el : Element N) (n : Nat)
    (_h0 : el.dataset.get "originalContent" = none) (_hn : 1 ≤ n) :
    (n = 1 → el.innerHTML ≠ "" →
        (hideLoading (showLoadingTimes n el)).children = el.parse el.innerHTML
          ∧ (el.serialize (el.parse el.innerHTML) = el.innerHTML →
              (hideLoading (showLoadingTimes n el)).innerHTML = el.innerHTML))
      ∧ (2 ≤ n →
        (hideLoading (showLoadingTimes n el)).children
            = el.parse (orDefault (some (el.serialize (el.parse loadingMarkup))) "Submit")
          ∧ (el.serialize (el.parse loadingMarkup) = loadingMarkup →
              (hideLoading (showLoadingTimes n el)).innerHTML = loadingMarkup)) := by
  constructor
  · intro h1 hc
    subst h1
    exact ⟨(show_hide_restores el hc).1, (show_hide_restores el hc).2.1⟩
  · intro h2
    obtain ⟨m, rfl⟩ : ∃ m, n = m + 2 := ⟨n - 2, by omega⟩
    have hp := showLoadingTimes_parse m el
    have h1 : (hideLoading (showLoadingTimes (m + 2) el)).children
        = el.parse (orDefault (some (el.serialize (el.parse loadingMarkup))) "Submit") := by
      rw [showLoadingTimes_succ, showLoadingTimes_succ, hideLoading_children,
        showLoading_recorded, showLoading_innerHTML, (showLoading_parse _).1,
        (showLoading_parse _).1, hp.1, hp.2]
    refine ⟨h1, ?_⟩
    intro hr
    show (hideLoading (showLoadingTimes (m + 2) el)).serialize
      (hideLoading (showLoadingTimes (m + 2) el)).children = _
    rw [h1, hr]
    have hs : (hideLoading (showLoadingTimes (m + 2) el)).serialize = el.serialize := by
      show (showLoadingTimes (m + 2) el).serialize = _
      exact (showLoadingTimes_parse (m + 2) el).2
    rw [hs]
    have : orDefault (some loadingMarkup) "Submit" = loadingMarkup := by decide
    rw [this, hr]

theorem show_times_hide_witness :
    DOMStringMap.get (button "Save").dataset "originalContent" = none
      ∧ (button "Save").innerHTML = "Save"
      ∧ (hideLoading (showLoadingTimes 1 (button "Save"))).innerHTML = "Save"
      ∧ (hideLoading (showLoadingTimes 3 (button "Save"))).innerHTML = loadingMarkup :=
  ⟨by decide, by decide,
    ((show_times_hide (button "Save") 1 (by decide) (by decide)).1 rfl (by decide)).2
      (by decide),
    ((show_times_hide (button "Save") 3 (by decide) (by decide)).2 (by decide)).2
      (by decide)⟩

/-- C10, as stated, fails on a void element: on an `<input type="submit">` with nothing
recorded, `innerHTML` still reads as the empty string after `hideLoading`, not as
`Submit`. -/
theorem hideLoading_void_element :
    DOMStringMap.get submitInput.dataset "originalContent" = none
      ∧ (hideLoading submitInput).innerHTML = ""
      ∧ (hideLoading submitInput).innerHTML ≠ "Submit" := by
  decide

/-- C10, amended: for every element with no recorded original content, `hideLoading` (a
total function: it raises nothing) assigns the default label `Submit` to `innerHTML`,
enables the element and leaves no recorded original content; the content then reads
`Submit` on every element whose `innerHTML` reads that text back when it is assigned. -/
theorem hideLoading_without_record {N : Type} (el : Element N)
    (h : el.dataset.get "originalContent" = none) :
    (hideLoading el).children = el.parse "Submit"
      ∧ (el.serialize (el.parse "Submit") = "Submit" → (hideLoading el).innerHTML = "Submit")
      ∧ (hideLoading el).disabled = false
      ∧ (hideLoading el).dataset.get "originalContent" = none := by
  have h1 : (hideLoading el).children = el.parse "Submit" := by
    rw [hideLoading_children, h]
    rfl
  refine ⟨h1, ?_, rfl, lookup_delete_self _ _⟩
  intro hr
  show el.serialize (hideLoading el).children = _
  rw [h1, hr]

theorem hideLoading_without_record_witness :
    DOMStringMap.get (button "Saving").dataset "originalContent" = none
      ∧ (hideLoading (button "Saving")).innerHTML = "Submit"
      ∧ (hideLoading (button "Saving")).disabled = false
      ∧ (hideLoading (button "Saving")).dataset.get "originalContent" = none :=
  ⟨by decide,
    (hideLoading_without_record (button "Saving") (by decide)).2.1 (by decide),
    (hideLoading_without_record (button "Saving") (by decide)).2.2⟩

/-! ## `debounce` -/

theorem lastArgs_cons {α : Type} (a : α) (c : Nat × α) (cs : List (Nat × α)) :
    lastArgs a (c :: cs) = lastArgs c.2 cs := by
  cases cs with
  | nil => rfl
  | cons d ds =>
    simp only [lastArgs, List.getLast?_cons_cons]
    rw [List.getLast?_eq_getLast (d :: ds) (List.cons_ne_nil d ds)]

theorem armed_first {α : Type} (wait now nextId : Nat) (a : α) :
    Armed wait a (executedFunction wait (debounce now nextId) a) :=
  ⟨nextId, rfl, rfl, rfl⟩

theorem advance_armed_lt {α : Type} (wait : Nat) (a : α) (p : Debounced α) (d : Nat)
    (hp : Armed wait a p) (hd : d < wait) :
    Page.advance later d p = { p with now := p.now + d } := by
  obtain ⟨id, h1, _, _⟩ := hp
  have hnot : ¬ (p.now + wait ≤ p.now + d) := by omega
  simp [Page.advance, h1, Page.runDue, earliest, hnot]

theorem armed_step {α : Type} (wait : Nat) (a : α) (p : Debounced α) (c : Nat × α)
    (hp : Armed wait a p) (hc : c.1 < wait) : Armed wait c.2 (debounceStep wait p c) := by
  obtain ⟨id, h1, h2, h3⟩ := hp
  refine ⟨p.nextId, ?_, ?_, ?_⟩
  · simp [debounceStep, advance_armed_lt wait a p c.1 ⟨id, h1, h2, h3⟩ hc, executedFunction,
      Page.clearTimeout, Page.setTimeout, h1, h2]
  · simp [debounceStep, advance_armed_lt wait a p c.1 ⟨id, h1, h2, h3⟩ hc, executedFunction,
      Page.clearTimeout, Page.setTimeout, h1, h2]
  · simp [debounceStep, advance_armed_lt wait a p c.1 ⟨id, h1, h2, h3⟩ hc, executedFunction,
      Page.clearTimeout, Page.setTimeout, h1, h2, h3]

theorem armed_foldl {α : Type} (wait : Nat) (rest : List (Nat × α)) :
    ∀ (a : α) (p : Debounced α), Armed wait a p → (∀ c ∈ rest, c.1 < wait) →
      Armed wait (lastArgs a rest) (rest.foldl (debounceStep wait) p) := by
  induction rest with
  | nil => intro a p hp _; exact hp
  | cons c cs ih =>
    intro a p hp h
    rw [lastArgs_cons, List.foldl_cons]
    exact ih c.2 _ (armed_step wait a p c hp (h c (List.mem_cons_self _ _)))
      (fun c1 hc1 => h c1 (List.mem_cons_of_mem _ hc1))

theorem armed_run {α : Type} (wait now nextId : Nat) (a0 : α) (rest : List (Nat × α))
    (h : ∀ c ∈ rest, c.1 < wait) :
    Armed wait (lastArgs a0 rest) (debounceRun wait now nextId a0 rest) :=
  armed_foldl wait rest a0 _ (armed_first wait now nextId a0) h

theorem advance_armed_ge {α : Type} (wait : Nat) (a : α) (p : Debounced α) (d : Nat)
    (hp : Armed wait a p) (hd : wait ≤ d) :
    (Page.advance later d p).vars.invoked = [a] ∧ (Page.advance later d p).pending = [] := by
  obtain ⟨id, h1, h2, h3⟩ := hp
  have hle : p.now + wait ≤ p.now + d := by omega
  simp [Page.advance, h1, Page.runDue, earliest, hle, later, Page.clearTimeout, h2, h3]

theorem advance_idle {α : Type} (p : Debounced α) (e : Nat) (hp : p.pending = []) :
    (Page.advance later e p).vars.invoked = p.vars.invoked := by
  simp [Page.advance, hp, Page.runDue]

/-- C1: for every `wait` and every non-empty sequence of wrapper calls (a first call
with `a0`, then the calls `rest`, each less than `wait` ms after the one before):
`func` has not been invoked after any of the calls, nor at any time less than `wait` ms
after one of them; and once `wait` ms or more have passed after the last call, `func`
has been invoked exactly once, with the arguments of the last call, and stays so. -/
theorem debounce_trailing_call {α : Type} (wait now nextId : Nat) (a0 : α)
    (rest : List (Nat × α)) (h : ∀ c ∈ rest, c.1 < wait) :
    (∀ k, (debounceRun wait now nextId a0 (rest.take k)).vars.invoked = [])
      ∧ (∀ k d, d < wait →
          (Page.advance later d (debounceRun wait now nextId a0 (rest.take k))).vars.invoked
            = [])
      ∧ (∀ d, wait ≤ d →
          (Page.advance later d (debounceRun wait now nextId a0 rest)).vars.invoked
            = [lastArgs a0 rest])
      ∧ (∀ d e, wait ≤ d →
          (Page.advance later e
            (Page.advance later d (debounceRun wait now nextId a0 rest))).vars.invoked
            = [lastArgs a0 rest]) := by
  have htake : ∀ k, ∀ c ∈ rest.take k, c.1 < wait :=
    fun k c hc => h c (List.mem_of_mem_take hc)
  refine ⟨?_, ?_, ?_, ?_⟩
  · intro k
    obtain ⟨_, _, _, h3⟩ := armed_run wait now nextId a0 (rest.take k) (htake k)
    exact h3
  · intro k d hd
    have hp := armed_run wait now nextId a0 (rest.take k) (htake k)
    rw [advance_armed_lt wait _ _ d hp hd]
    obtain ⟨_, _, _, h3⟩ := hp
    exact h3
  · intro d hd
    exact (advance_armed_ge wait _ _ d (armed_run wait now nextId a0 rest h) hd).1
  · intro d e hd
    have hge := advance_armed_ge wait _ _ d (armed_run wait now nextId a0 rest h) hd
    rw [advance_idle _ e hge.2]
    exact hge.1

theorem debounce_trailing_call_witness :
    (∀ c ∈ [(3, "b"), (9, "c")], c.1 < 10)
      ∧ (Page.advance later 9 (debounceRun 10 0 0 "a" [(3, "b"), (9, "c")])).vars.invoked = []
      ∧ (Page.advance later 10 (debounceRun 10 0 0 "a" [(3, "b"), (9, "c")])).vars.invoked
        = ["c"]
      ∧ ((∀ k, (debounceRun 10 0 0 "a" (List.take k [(3, "b"), (9, "c")])).vars.invoked = [])
        ∧ (∀ k d, d < 10 →
            (Page.advance later d
              (debounceRun 10 0 0 "a" (List.take k [(3, "b"), (9, "c")]))).vars.invoked = [])
        ∧ (∀ d, 10 ≤ d →
            (Page.advance later d (debounceRun 10 0 0 "a" [(3, "b"), (9, "c")])).vars.invoked
              = [lastArgs "a" [(3, "b"), (9, "c")]])
        ∧ (∀ d e, 10 ≤ d →
            (Page.advance later e
              (Page.advance later d
                (debounceRun 10 0 0 "a" [(3, "b"), (9, "c")]))).vars.invoked
              = [lastArgs "a" [(3, "b"), (9, "c")]])) :=
  ⟨by decide, by decide, by decide,
    debounce_trailing_call 10 0 0 "a" [(3, "b"), (9, "c")] (by decide)⟩

/-! ## `throttle` -/

theorem runDue_invoked {α : Type} (fuel target : Nat) (p : Throttled α) :
    (Page.runDue resetThrottle fuel target p).vars.invoked = p.vars.invoked := by
  induction fuel generalizing p with
  | zero => rfl
  | succ fuel ih =>
    simp only [Page.runDue]
    split
    · rfl
    · split
      · rw [ih]; rfl
      · rfl

theorem runDue_now {α : Type} (fuel target : Nat) (p : Throttled α) (h : target ≤ p.now) :
    (Page.runDue resetThrottle fuel target p).now = p.now := by
  induction fuel generalizing p with
  | zero => rfl
  | succ fuel ih =>
    simp only [Page.runDue]
    split
    · rfl
    · next t _ =>
      split
      · next hdue =>
        rw [ih]
        · simp only [resetThrottle]
          omega
        · simp only [resetThrottle]
          omega
      · rfl

theorem idle_invoked {α : Type} (p : Throttled α) (i : Idle) :
    (Page.idle resetThrottle p i).vars.invoked = p.vars.invoked := by
  cases i with
  | elapse d => rfl
  | timers => exact runDue_invoked _ _ _

theorem idle_now {α : Type} (p : Throttled α) (i : Idle) :
    (Page.idle resetThrottle p i).now = p.now + elapsed [i] := by
  cases i with
  | elapse d => rfl
  | timers => exact runDue_now _ _ _ (le_refl _)

theorem idles_invoked {α : Type} (idles : List Idle) :
    ∀ p : Throttled α, (idles.foldl (Page.idle resetThrottle) p).vars.invoked = p.vars.invoked := by
  induction idles with
  | nil => intro p; rfl
  | cons i rest ih => intro p; rw [List.foldl_cons, ih, idle_invoked]

theorem idles_now {α : Type} (idles : List Idle) :
    ∀ p : Throttled α, (idles.foldl (Page.idle resetThrottle) p).now = p.now + elapsed idles := by
  induction idles with
  | nil => intro p; rfl
  | cons i rest ih =>
    intro p
    rw [List.foldl_cons, ih, idle_now]
    cases i <;> simp [elapsed]
    omega

theorem coolingAt_idle {α : Type} (limit : Nat) (last : Option Nat) (p : Throttled α)
    (i : Idle) (hp : CoolingAt limit last p) :
    CoolingAt limit last (Page.idle resetThrottle p i) := by
  cases i with
  | elapse d =>
    cases last with
    | none => exact hp
    | some t =>
      obtain ⟨h0, h⟩ := hp
      refine ⟨?_, ?_⟩
      · show t ≤ p.now + d
        omega
      · rcases h with ⟨h1, h2⟩ | ⟨h1, h2, h3⟩
        · exact Or.inl ⟨h1, h2⟩
        · refine Or.inr ⟨h1, h2, ?_⟩
          show t + limit ≤ p.now + d
          omega
  | timers =>
    have hnow : (Page.idle resetThrottle p Idle.timers).now = p.now :=
      runDue_now _ _ _ (le_refl _)
    cases last with
    | none =>
      obtain ⟨h1, h2⟩ := hp
      simp [CoolingAt, Page.idle, h2, Page.runDue, h1]
    | some t =>
      obtain ⟨h0, h⟩ := hp
      refine ⟨by rw [hnow]; exact h0, ?_⟩
      rw [hnow]
      rcases h with ⟨h1, id, h2⟩ | ⟨h1, h2, h3⟩
      · by_cases hd : t + limit ≤ p.now
        · right
          simp [Page.idle, h2, Page.runDue, earliest, hd, resetThrottle]
        · left
          simp [Page.idle, h2, Page.runDue, earliest, hd, h1]
      · right
        simp [Page.idle, h2, Page.runDue, h1, h3]

theorem cooling_idle {α ε : Type} (func : α → Except ε Unit) (limit : Nat) (p : Throttled α)
    (i : Idle) (hp : Cooling func limit p) : Cooling func limit (Page.idle resetThrottle p i) := by
  unfold Cooling
  rw [idle_invoked]
  exact coolingAt_idle limit _ p i hp

theorem cooling_idles {α ε : Type} (func : α → Except ε Unit) (limit : Nat)
    (idles : List Idle) :
    ∀ p : Throttled α, Cooling func limit p →
      Cooling func limit (idles.foldl (Page.idle resetThrottle) p) := by
  induction idles with
  | nil => intro p hp; exact hp
  | cons i rest ih => intro p hp; exact ih _ (cooling_idle func limit p i hp)

theorem pending_of_flag {α ε : Type} (func : α → Except ε Unit) (limit : Nat)
    (q : Throttled α) (hq : Cooling func limit q) :
    (q.vars.inThrottle = false → q.pending = [])
      ∧ (q.vars.inThrottle = true → q.pending ≠ []) := by
  unfold Cooling at hq
  cases hlast : lastReturned func q.vars.invoked with
  | none =>
    rw [hlast] at hq
    exact ⟨fun _ => hq.2, fun h => by rw [hq.1] at h; exact Bool.noConfusion h⟩
  | some t =>
    rw [hlast] at hq
    rcases hq.2 with ⟨h1, id, h2⟩ | ⟨h1, h2, _⟩
    · exact ⟨fun h => by rw [h1] at h; exact Bool.noConfusion h, fun _ => by simp [h2]⟩
    · exact ⟨fun _ => h2, fun h => by rw [h1] at h; exact Bool.noConfusion h⟩

theorem lastReturned_append_ok {α ε : Type} (func : α → Except ε Unit)
    (log : List (Nat × α)) (t : Nat) (a : α) (h : returns func a = true) :
    returned func (log ++ [(t, a)]) = returned func log ++ [(t, a)]
      ∧ lastReturned func (log ++ [(t, a)]) = some t := by
  have h1 : returned func (log ++ [(t, a)]) = returned func log ++ [(t, a)] := by
    simp [returned, List.filter_append, h]
  exact ⟨h1, by simp [lastReturned, h1]⟩

theorem returned_append_error {α ε : Type} (func : α → Except ε Unit)
    (log : List (Nat × α)) (t : Nat) (a : α) (h : returns func a = false) :
    returned func (log ++ [(t, a)]) = returned func log := by
  simp [returned, List.filter_append, h]

theorem throttled_flag_set {α ε : Type} (func : α → Except ε Unit) (limit : Nat)
    (q : Throttled α) (a : α) (h : q.vars.inThrottle = true) :
    throttled func limit q a = (.ok (), q) := by
  simp [throttled, h]

theorem throttled_raises {α ε : Type} (func : α → Except ε Unit) (limit : Nat)
    (q : Throttled α) (a : α) (e : ε) (h : q.vars.inThrottle = false)
    (hf : func a = .error e) :
    throttled func limit q a
      = (.error e,
          { q with vars := { q.vars with invoked := q.vars.invoked ++ [(q.now, a)] } }) := by
  simp [throttled, h, hf]

theorem throttled_returns {α ε : Type} (func : α → Except ε Unit) (limit : Nat)
    (q : Throttled α) (a : α) (h : q.vars.inThrottle = false) (hf : func a = .ok ()) :
    throttled func limit q a
      = (.ok (),
          { q with
            nextId := q.nextId + 1
            pending := q.pending ++ [⟨q.nextId, q.now + limit, ()⟩]
            vars := { inThrottle := true, invoked := q.vars.invoked ++ [(q.now, a)] } }) := by
  simp [throttled, h, hf, Page.setTimeout]

theorem func_cases {α ε : Type} (func : α → Except ε Unit) (a : α) :
    (func a = .ok () ∧ returns func a = true)
      ∨ (∃ e, func a = .error e ∧ returns func a = false) := by
  unfold returns
  cases h : func a with
  | ok u => cases u; exact Or.inl ⟨rfl, rfl⟩
  | error e => exact Or.inr ⟨e, rfl, rfl⟩

theorem cooling_throttled {α ε : Type} (func : α → Except ε Unit) (limit : Nat)
    (q : Throttled α) (a : α) (hq : Cooling func limit q) :
    Cooling func limit (throttled func limit q a).2 := by
  cases hf : q.vars.inThrottle with
  | true => rw [throttled_flag_set func limit q a hf]; exact hq
  | false =>
    have hpend := (pending_of_flag func limit q hq).1 hf
    rcases func_cases func a with ⟨h1, h2⟩ | ⟨e, h1, h2⟩
    · rw [throttled_returns func limit q a hf h1]
      unfold Cooling
      simp only [(lastReturned_append_ok func q.vars.invoked q.now a h2).2]
      exact ⟨le_refl _, Or.inl ⟨rfl, q.nextId, by simp [hpend]⟩⟩
    · rw [throttled_raises func limit q a e hf h1]
      unfold Cooling at hq ⊢
      simp only [lastReturned, returned_append_error func q.vars.invoked q.now a h2]
      simp only [lastReturned] at hq
      cases hlast : (returned func q.vars.invoked).getLast?.map Prod.fst with
      | none => rw [hlast] at hq; exact ⟨hf, hpend⟩
      | some t =>
        rw [hlast] at hq
        rcases hq.2 with ⟨h3, _⟩ | ⟨h3, h4, h5⟩
        · rw [hf] at h3; exact Bool.noConfusion h3
        · exact ⟨hq.1, Or.inr ⟨hf, hpend, h5⟩⟩

theorem cooling_foldl {α ε : Type} (func : α → Except ε Unit) (limit : Nat)
    (calls : List (List Idle × α)) :
    ∀ p : Throttled α, Cooling func limit p →
      Cooling func limit (calls.foldl (throttleStep func limit) p) := by
  induction calls with
  | nil => intro p hp; exact hp
  | cons c cs ih =>
    intro p hp
    rw [List.foldl_cons]
    exact ih _ (cooling_throttled func limit _ c.2 (cooling_idles func limit c.1 p hp))

theorem cooling_fresh {α ε : Type} (func : α → Except ε Unit) (limit now nextId : Nat) :
    Cooling func limit (throttle now nextId : Throttled α) :=
  ⟨rfl, rfl⟩

theorem cooling_reach {α ε : Type} (func : α → Except ε Unit) (limit now nextId : Nat)
    (calls : List (List Idle × α)) (idles : List Idle) :
    Cooling func limit (throttleReach func limit now nextId calls idles) :=
  cooling_idles func limit idles _
    (cooling_foldl func limit calls _ (cooling_fresh func limit now nextId))

theorem throttled_unset {α ε : Type} (func : α → Except ε Unit) (limit : Nat)
    (q : Throttled α) (a : α) (h : q.vars.inThrottle = false) :
    (throttled func limit q a).1 = func a
      ∧ (throttled func limit q a).2.vars.invoked = q.vars.invoked ++ [(q.now, a)] := by
  rcases func_cases func a with ⟨h1, _⟩ | ⟨e, h1, _⟩
  · rw [throttled_returns func limit q a h h1]; exact ⟨h1.symm, rfl⟩
  · rw [throttled_raises func limit q a e h h1]; exact ⟨h1.symm, rfl⟩

theorem throttled_now {α ε : Type} (func : α → Except ε Unit) (limit : Nat)
    (q : Throttled α) (a : α) : (throttled func limit q a).2.now = q.now := by
  cases hf : q.vars.inThrottle with
  | true => rw [throttled_flag_set func limit q a hf]
  | false =>
    rcases func_cases func a with ⟨h1, _⟩ | ⟨e, h1, _⟩
    · rw [throttled_returns func limit q a hf h1]
    · rw [throttled_raises func limit q a e hf h1]

theorem throttleStep_now {α ε : Type} (func : α → Except ε Unit) (limit : Nat)
    (p : Throttled α) (c : List Idle × α) :
    (throttleStep func limit p c).now = p.now + elapsed c.1 := by
  rw [throttleStep, throttled_now, idles_now]

theorem throttleStep_grows {α ε : Type} (func : α → Except ε Unit) (limit : Nat)
    (p : Throttled α) (c : List Idle × α) :
    ∃ l, (throttleStep func limit p c).vars.invoked = p.vars.invoked ++ l := by
  unfold throttleStep
  cases hf : (c.1.foldl (Page.idle resetThrottle) p).vars.inThrottle with
  | true =>
    rw [throttled_flag_set func limit _ c.2 hf, idles_invoked]
    exact ⟨[], by simp⟩
  | false =>
    rw [(throttled_unset func limit _ c.2 hf).2, idles_invoked]
    exact ⟨_, rfl⟩

theorem foldl_grows {α ε : Type} (func : α → Except ε Unit) (limit : Nat)
    (calls : List (List Idle × α)) :
    ∀ p : Throttled α,
      ∃ l, (calls.foldl (throttleStep func limit) p).vars.invoked = p.vars.invoked ++ l := by
  induction calls with
  | nil => intro p; exact ⟨[], by simp⟩
  | cons c cs ih =>
    intro p
    obtain ⟨l1, h1⟩ := throttleStep_grows func limit p c
    obtain ⟨l2, h2⟩ := ih (throttleStep func limit p c)
    exact ⟨l1 ++ l2, by rw [List.foldl_cons, h2, h1, List.append_assoc]⟩

theorem foldl_now {α ε : Type} (func : α → Except ε Unit) (limit : Nat)
    (calls : List (List Idle × α)) :
    ∀ p : Throttled α,
      (calls.foldl (throttleStep func limit) p).now
        = p.now + (calls.map (fun c => elapsed c.1)).sum := by
  induction calls with
  | nil => intro p; simp
  | cons c cs ih =>
    intro p
    rw [List.foldl_cons, ih, throttleStep_now]
    simp only [List.map_cons, List.sum_cons]
    omega

theorem lastReturned_of_ne_nil {α ε : Type} (func : α → Except ε Unit)
    (log : List (Nat × α)) (h : returned func log ≠ []) :
    ∃ t, lastReturned func log = some t := by
  unfold lastReturned
  rw [List.getLast?_eq_getLast _ h]
  exact ⟨_, rfl⟩

theorem spaced_idles {α ε : Type} (func : α → Except ε Unit) (limit first : Nat)
    (idles : List Idle) (p : Throttled α) (hp : Spaced func limit first p) :
    Spaced func limit first (idles.foldl (Page.idle resetThrottle) p) := by
  unfold Spaced at hp ⊢
  rw [idles_invoked, idles_now]
  exact ⟨by omega, hp.2⟩

theorem spaced_throttled {α ε : Type} (func : α → Except ε Unit) (limit first : Nat)
    (q : Throttled α) (a : α) (hc : Cooling func limit q) (hs : Spaced func limit first q) :
    Spaced func limit first (throttled func limit q a).2 := by
  cases hf : q.vars.inThrottle with
  | true => rw [throttled_flag_set func limit q a hf]; exact hs
  | false =>
    rcases func_cases func a with ⟨h1, h2⟩ | ⟨e, h1, h2⟩
    · rw [throttled_returns func limit q a hf h1]
      obtain ⟨hr1, hr2⟩ := lastReturned_append_ok func q.vars.invoked q.now a h2
      refine ⟨hs.1, ?_⟩
      intro t ht
      simp only [hr2, Option.some.injEq] at ht
      subst ht
      simp only [hr1, List.length_append, List.length_singleton, Nat.add_sub_cancel]
      by_cases hk : returned func q.vars.invoked = []
      · simp only [hk, List.length_nil, Nat.zero_mul, Nat.zero_add]
        exact hs.1
      · obtain ⟨t0, ht0⟩ := lastReturned_of_ne_nil func _ hk
        have h3 := hs.2 t0 ht0
        have hpos : 0 < (returned func q.vars.invoked).length := List.length_pos.mpr hk
        unfold Cooling at hc
        rw [ht0] at hc
        rcases hc.2 with ⟨h4, _⟩ | ⟨_, _, h5⟩
        · rw [hf] at h4; exact Bool.noConfusion h4
        · obtain ⟨k, hk1⟩ : ∃ k, (returned func q.vars.invoked).length = k + 1 :=
            ⟨_, (Nat.succ_pred_eq_of_pos hpos).symm⟩
          rw [hk1] at h3 ⊢
          simp only [Nat.add_sub_cancel] at h3
          rw [Nat.add_mul, Nat.one_mul]
          omega
    · rw [throttled_raises func limit q a e hf h1]
      unfold Spaced at hs ⊢
      simp only [lastReturned, returned_append_error func q.vars.invoked q.now a h2]
      exact hs

theorem spaced_foldl {α ε : Type} (func : α → Except ε Unit) (limit first : Nat)
    (calls : List (List Idle × α)) :
    ∀ p : Throttled α, Cooling func limit p → Spaced func limit first p →
      Spaced func limit first (calls.foldl (throttleStep func limit) p) := by
  induction calls with
  | nil => intro p _ hp; exact hp
  | cons c cs ih =>
    intro p hc hs
    rw [List.foldl_cons]
    have hc1 := cooling_idles func limit c.1 p hc
    exact ih _ (cooling_throttled func limit _ c.2 hc1)
      (spaced_throttled func limit first _ c.2 hc1 (spaced_idles func limit first c.1 p hs))

theorem fresh_idles {α ε : Type} (func : α → Except ε Unit) (limit now nextId : Nat)
    (idles : List Idle) :
    (idles.foldl (Page.idle resetThrottle) (throttle now nextId : Throttled α)).vars.inThrottle
        = false
      ∧ (idles.foldl (Page.idle resetThrottle) (throttle now nextId : Throttled α)).vars.invoked
        = []
      ∧ (idles.foldl (Page.idle resetThrottle) (throttle now nextId : Throttled α)).now
        = now + elapsed idles := by
  have hc := cooling_idles func limit idles _ (cooling_fresh func limit now nextId)
  have hi := idles_invoked idles (throttle now nextId : Throttled α)
  have hn := idles_now idles (throttle now nextId : Throttled α)
  have hi0 : (idles.foldl (Page.idle resetThrottle)
      (throttle now nextId : Throttled α)).vars.invoked = [] := hi
  unfold Cooling at hc
  rw [hi0] at hc
  exact ⟨hc.1, hi0, hn⟩

/-- C2, as stated, fails in two ways. With a `func` that raises, the wrapper starts no
cooldown: of two calls 1 ms apart with `limit = 1000`, the second invokes `func` too.
And the cooldown ends when the reset timer runs, not when `limit` ms have passed: with a
`func` that returns and `limit = 10`, a call made 60 ms after the first one, before the
event loop has run the timer, invokes nothing. -/
theorem throttle_cooldown_not_by_clock :
    (0 < 1000 ∧ 1 < 1000
        ∧ (throttleRun (fun _ : String => (Except.error "boom" : Except String Unit)) 1000 0 0
          [([], "a"), ([Idle.elapse 1], "b")]).vars.invoked = [(0, "a"), (1, "b")])
      ∧ (0 < 10 ∧ 10 ≤ 60
        ∧ (throttleRun (fun _ : String => (Except.ok () : Except String Unit)) 10 0 0
          [([], "a"), ([Idle.elapse 60], "b")]).vars.invoked = [(0, "a")]) := by
  decide

/-- C2, amended: for every `func`, every `limit` and every state `q` reached by
wrapper calls and idle steps on a fresh wrapper. The first call invokes `func` at its own
time with its own arguments. Idle steps invoke nothing. A call made less than `limit` ms
after the most recent invocation that returned normally changes nothing at all (it is
dropped: nothing runs then, nothing is queued), and so does any call made while the reset
timer is still pending, however late. A call made when no reset timer is pending invokes
`func` at its own time with its own arguments and has the outcome of `func`; if `func`
returns, a reset timer is pending again and this invocation is the most recent one that
returned; if `func` raises, no timer is pending and no cooldown starts. Once `limit` ms
have passed since the most recent invocation that returned, the reset timer is gone as
soon as the event loop runs the due timers. -/
theorem throttle_leading_calls {α ε : Type} (func : α → Except ε Unit)
    (limit now nextId : Nat) (calls : List (List Idle × α)) (idles : List Idle)
    (c : List Idle × α) (args : α) :
    (throttleRun func limit now nextId [c]).vars.invoked = [(now + elapsed c.1, c.2)]
      ∧ (throttleReach func limit now nextId calls idles).vars.invoked
        = (throttleRun func limit now nextId calls).vars.invoked
      ∧ (∀ t, lastReturned func (throttleReach func limit now nextId calls idles).vars.invoked
            = some t →
          (throttleReach func limit now nextId calls idles).now < t + limit →
          throttled func limit (throttleReach func limit now nextId calls idles) args
            = (.ok (), throttleReach func limit now nextId calls idles))
      ∧ ((throttleReach func limit now nextId calls idles).pending ≠ [] →
          throttled func limit (throttleReach func limit now nextId calls idles) args
            = (.ok (), throttleReach func limit now nextId calls idles))
      ∧ ((throttleReach func limit now nextId calls idles).pending = [] →
          (throttled func limit (throttleReach func limit now nextId calls idles) args).1
              = func args
            ∧ (throttled func limit
                (throttleReach func limit now nextId calls idles) args).2.vars.invoked
              = (throttleReach func limit now nextId calls idles).vars.invoked
                ++ [((throttleReach func limit now nextId calls idles).now, args)])
      ∧ ((throttleReach func limit now nextId calls idles).pending = [] →
          func args = .ok () →
          (throttled func limit
              (throttleReach func limit now nextId calls idles) args).2.pending ≠ []
            ∧ lastReturned func (throttled func limit
                (throttleReach func limit now nextId calls idles) args).2.vars.invoked
              = some (throttleReach func limit now nextId calls idles).now)
      ∧ ((throttleReach func limit now nextId calls idles).pending = [] →
          ∀ e, func args = .error e →
          (throttled func limit
              (throttleReach func limit now nextId calls idles) args).2.pending = []
            ∧ lastReturned func (throttled func limit
                (throttleReach func limit now nextId calls idles) args).2.vars.invoked
              = lastReturned func
                  (throttleReach func limit now nextId calls idles).vars.invoked)
      ∧ (∀ t, lastReturned func (throttleReach func limit now nextId calls idles).vars.invoked
            = some t →
          t + limit ≤ (throttleReach func limit now nextId calls idles).now →
          (Page.idle resetThrottle (throttleReach func limit now nextId calls idles)
            Idle.timers).pending = []) := by
  refine ⟨?_, idles_invoked idles _, ?_⟩
  · obtain ⟨h1, h2, h3⟩ := fresh_idles func limit now nextId c.1
    have h4 := (throttled_unset func limit _ c.2 h1).2
    rw [h2, h3] at h4
    simpa [throttleRun, throttleStep] using h4
  have hq := cooling_reach func limit now nextId calls idles
  have hflag := pending_of_flag func limit _ hq
  generalize throttleReach func limit now nextId calls idles = q at hq hflag
  have hunset : q.pending = [] → q.vars.inThrottle = false := by
    intro hp
    cases hf : q.vars.inThrottle with
    | false => rfl
    | true => exact absurd hp (hflag.2 hf)
  have hset : q.pending ≠ [] → q.vars.inThrottle = true := by
    intro hp
    cases hf : q.vars.inThrottle with
    | true => rfl
    | false => exact absurd (hflag.1 hf) hp
  refine ⟨?_, ?_, ?_, ?_, ?_, ?_⟩
  · intro t ht hlt
    unfold Cooling at hq
    rw [ht] at hq
    rcases hq.2 with ⟨h1, _⟩ | ⟨_, _, h3⟩
    · exact throttled_flag_set func limit q args h1
    · omega
  · intro hp
    exact throttled_flag_set func limit q args (hset hp)
  · intro hp
    exact throttled_unset func limit q args (hunset hp)
  · intro hp hf
    rw [throttled_returns func limit q args (hunset hp) hf]
    have h2 : returns func args = true := by simp [returns, hf]
    exact ⟨by simp, (lastReturned_append_ok func q.vars.invoked q.now args h2).2⟩
  · intro hp e hf
    rw [throttled_raises func limit q args e (hunset hp) hf]
    have h2 : returns func args = false := by simp [returns, hf]
    refine ⟨hp, ?_⟩
    simp only [lastReturned, returned_append_error func q.vars.invoked q.now args h2]
  · intro t ht hge
    unfold Cooling at hq
    rw [ht] at hq
    rcases hq.2 with ⟨_, id, h2⟩ | ⟨_, h2, _⟩
    · simp [Page.idle, h2, Page.runDue, earliest, hge, resetThrottle]
    · simp [Page.idle, h2, Page.runDue]

theorem throttle_leading_calls_witness :
    (throttleRun (fun _ : String => (Except.ok () : Except String Unit)) 10 0 0
        [([], "a"), ([Idle.elapse 60], "b"), ([Idle.timers, Idle.elapse 3], "c")]).vars.invoked
        = [(0, "a"), (63, "c")]
      ∧ (throttleReach (fun _ : String => (Except.ok () : Except String Unit)) 10 0 0
          [([], "a")] [Idle.elapse 60]).pending ≠ []
      ∧ throttled (fun _ : String => (Except.ok () : Except String Unit)) 10
          (throttleReach (fun _ : String => (Except.ok () : Except String Unit)) 10 0 0
            [([], "a")] [Idle.elapse 60]) "b"
        = (.ok (), throttleReach (fun _ : String => (Except.ok () : Except String Unit)) 10 0 0
            [([], "a")] [Idle.elapse 60]) :=
  ⟨by decide, by decide,
    (throttle_leading_calls (fun _ : String => (Except.ok () : Except String Unit)) 10 0 0
      [([], "a")] [Idle.elapse 60] ([], "a") "b").2.2.2.1 (by decide)⟩

/-- C3, as stated, fails for a `func` that raises: five calls 1 ms apart with
`limit = 1000` invoke `func` five times, more than `ceil(4 / 1000) + 1 = 2`. -/
theorem throttle_bound_fails_when_func_raises :
    0 < 1000
      ∧ duration [(([] : List Idle), "a"), ([Idle.timers, Idle.elapse 1], "b"),
          ([Idle.timers, Idle.elapse 1], "c"), ([Idle.timers, Idle.elapse 1], "d"),
          ([Idle.timers, Idle.elapse 1], "e")] = 4
      ∧ ceilDiv 4 1000 + 1 = 2
      ∧ (throttleRun (fun _ : String => (Except.error "boom" : Except String Unit)) 1000 0 0
          [([], "a"), ([Idle.timers, Idle.elapse 1], "b"), ([Idle.timers, Idle.elapse 1], "c"),
            ([Idle.timers, Idle.elapse 1], "d"),
            ([Idle.timers, Idle.elapse 1], "e")]).vars.invoked.length = 5
      ∧ ¬ ((throttleRun (fun _ : String => (Except.error "boom" : Except String Unit)) 1000 0 0
          [([], "a"), ([Idle.timers, Idle.elapse 1], "b"), ([Idle.timers, Idle.elapse 1], "c"),
            ([Idle.timers, Idle.elapse 1], "d"),
            ([Idle.timers, Idle.elapse 1], "e")]).vars.invoked.length
          ≤ ceilDiv (duration [(([] : List Idle), "a"), ([Idle.timers, Idle.elapse 1], "b"),
            ([Idle.timers, Idle.elapse 1], "c"), ([Idle.timers, Idle.elapse 1], "d"),
            ([Idle.timers, Idle.elapse 1], "e")]) 1000 + 1) := by
  decide

/-- C3, amended: for every `func`, every `limit > 0` and every non-empty sequence of
wrapper calls at non-decreasing times, whenever the timers run: the invocations of `func`
that return normally are at most `ceil(D / limit) + 1`, `D` being the time between the
first and the last call; so are all the invocations when `func` never raises; and the
first invocation is the first call, at its own time. -/
theorem throttle_invocation_bound {α ε : Type} (func : α → Except ε Unit)
    (limit now nextId : Nat) (c0 : List Idle × α) (rest : List (List Idle × α))
    (hl : 0 < limit) :
    (returned func (throttleRun func limit now nextId (c0 :: rest)).vars.invoked).length
        ≤ ceilDiv (duration (c0 :: rest)) limit + 1
      ∧ ((∀ a, returns func a = true) →
          (throttleRun func limit now nextId (c0 :: rest)).vars.invoked.length
            ≤ ceilDiv (duration (c0 :: rest)) limit + 1)
      ∧ (throttleRun func limit now nextId (c0 :: rest)).vars.invoked.head?
        = some (now + elapsed c0.1, c0.2) := by
  obtain ⟨h1, h2, h3⟩ := fresh_idles func limit now nextId c0.1
  have hc0 := cooling_idles func limit c0.1 _ (cooling_fresh func limit now nextId)
  have hs0 : Spaced func limit (now + elapsed c0.1)
      (c0.1.foldl (Page.idle resetThrottle) (throttle now nextId : Throttled α)) := by
    refine ⟨by rw [h3], ?_⟩
    intro t ht
    rw [h2] at ht
    simp [lastReturned, returned] at ht
  have hc1 := cooling_throttled func limit _ c0.2 hc0
  have hs1 := spaced_throttled func limit _ _ c0.2 hc0 hs0
  have hrun : throttleRun func limit now nextId (c0 :: rest)
      = rest.foldl (throttleStep func limit)
          (throttled func limit
            (c0.1.foldl (Page.idle resetThrottle) (throttle now nextId)) c0.2).2 := rfl
  have hc := cooling_foldl func limit rest _ hc1
  have hs := spaced_foldl func limit (now + elapsed c0.1) rest _ hc1 hs1
  have hnow := foldl_now func limit rest
    (throttled func limit (c0.1.foldl (Page.idle resetThrottle) (throttle now nextId)) c0.2).2
  rw [throttled_now, h3] at hnow
  obtain ⟨l, hgrow⟩ := foldl_grows func limit rest
    (throttled func limit (c0.1.foldl (Page.idle resetThrottle) (throttle now nextId)) c0.2).2
  rw [(throttled_unset func limit _ c0.2 h1).2, h2, h3] at hgrow
  rw [← hrun] at hc hs hnow hgrow
  have hbound : (returned func
      (throttleRun func limit now nextId (c0 :: rest)).vars.invoked).length
        ≤ ceilDiv (duration (c0 :: rest)) limit + 1 := by
    by_cases hk : returned func (throttleRun func limit now nextId (c0 :: rest)).vars.invoked
        = []
    · simp [hk]
    · obtain ⟨t, ht⟩ := lastReturned_of_ne_nil func _ hk
      have h4 := hs.2 t ht
      unfold Cooling at hc
      rw [ht] at hc
      have h5 := hc.1
      have h6 : ((returned func
          (throttleRun func limit now nextId (c0 :: rest)).vars.invoked).length - 1) * limit
            ≤ duration (c0 :: rest) := by
        simp only [duration]
        omega
      have h7 : (returned func
          (throttleRun func limit now nextId (c0 :: rest)).vars.invoked).length - 1
            ≤ duration (c0 :: rest) / limit := (Nat.le_div_iff_mul_le hl).mpr h6
      have h8 : duration (c0 :: rest) / limit ≤ ceilDiv (duration (c0 :: rest)) limit :=
        Nat.div_le_div_right (by omega)
      omega
  refine ⟨hbound, ?_, ?_⟩
  · intro hall
    have : returned func (throttleRun func limit now nextId (c0 :: rest)).vars.invoked
        = (throttleRun func limit now nextId (c0 :: rest)).vars.invoked := by
      unfold returned
      exact List.filter_eq_self.mpr (fun e _ => hall e.2)
    rw [this] at hbound
    exact hbound
  · rw [hgrow]
    rfl

theorem throttle_invocation_bound_witness :
    ceilDiv (duration [(([] : List Idle), "a"), ([Idle.elapse 3], "b"),
        ([Idle.elapse 7, Idle.timers], "c"), ([Idle.elapse 1], "d"),
        ([Idle.timers, Idle.elapse 10, Idle.timers], "e")]) 10 + 1 = 4
      ∧ (throttleRun (fun _ : String => (Except.ok () : Except String Unit)) 10 5 0
          [([], "a"), ([Idle.elapse 3], "b"), ([Idle.elapse 7, Idle.timers], "c"),
            ([Idle.elapse 1], "d"),
            ([Idle.timers, Idle.elapse 10, Idle.timers], "e")]).vars.invoked
        = [(5, "a"), (15, "c"), (26, "e")]
      ∧ (throttleRun (fun _ : String => (Except.ok () : Except String Unit)) 10 5 0
          (([], "a") :: [([Idle.elapse 3], "b"), ([Idle.elapse 7, Idle.timers], "c"),
            ([Idle.elapse 1], "d"),
            ([Idle.timers, Idle.elapse 10, Idle.timers], "e")])).vars.invoked.length
        ≤ ceilDiv (duration ((([] : List Idle), "a") :: [([Idle.elapse 3], "b"),
            ([Idle.elapse 7, Idle.timers], "c"), ([Idle.elapse 1], "d"),
            ([Idle.timers, Idle.elapse 10, Idle.timers], "e")])) 10 + 1 :=
  ⟨by decide, by decide,
    (throttle_invocation_bound (fun _ : String => (Except.ok () : Except String Unit)) 10 5 0
      ([], "a") [([Idle.elapse 3], "b"), ([Idle.elapse 7, Idle.timers], "c"),
        ([Idle.elapse 1], "d"), ([Idle.timers, Idle.elapse 10, Idle.timers], "e")]
      (by decide)).2.1 (fun _ => rfl)⟩

/-! ## Local storage helpers -/

/-- C5: whatever the host does (serialisation, write, read or parsing may each raise or
return anything), `saveToStorage` returns normally and `loadFromStorage` returns
normally; and `loadFromStorage` returns `null` whenever the key is missing, the read
raises, or parsing the stored text raises. -/
theorem storage_never_raises {σ V : Type} (h : Host σ V) (w : World σ) (key : String)
    (value : V) :
    (∃ w1, saveToStorage h w key value = .ok w1)
      ∧ (∃ r, loadFromStorage h w key = .ok r)
      ∧ (h.getItem w.storage key = .ok none →
          ∃ w1, loadFromStorage h w key = .ok (h.null, w1))
      ∧ (∀ e, h.getItem w.storage key = .error e →
          ∃ w1, loadFromStorage h w key = .ok (h.null, w1))
      ∧ (∀ item e, h.getItem w.storage key = .ok (some item) → h.parse item = .error e →
          ∃ w1, loadFromStorage h w key = .ok (h.null, w1)) := by
  refine ⟨?_, ?_, ?_, ?_, ?_⟩
  · unfold saveToStorage consoleWarn
    dsimp only
    split <;> exact ⟨_, rfl⟩
  · unfold loadFromStorage consoleWarn
    dsimp only
    split <;> exact ⟨_, rfl⟩
  · intro hg
    unfold loadFromStorage
    rw [hg]
    exact ⟨_, rfl⟩
  · intro e hg
    unfold loadFromStorage consoleWarn
    rw [hg]
    exact ⟨_, rfl⟩
  · intro item e hg hp
    unfold loadFromStorage consoleWarn
    rw [hg]
    by_cases hi : item = ""
    · simp only [hi, if_true]; exact ⟨_, rfl⟩
    · simp only [hi, if_false, hp]; exact ⟨_, rfl⟩

theorem storage_never_raises_witness :
    brokenHost.getItem () "gone" = .ok none
      ∧ brokenHost.getItem () "locked" = .error .securityError
      ∧ brokenHost.getItem () "theme" = .ok (some "oops")
      ∧ brokenHost.parse "oops" = .error .syntaxError
      ∧ (∃ w1, loadFromStorage brokenHost ⟨(), []⟩ "gone" = .ok (JSON.null, w1))
      ∧ (∃ w1, loadFromStorage brokenHost ⟨(), []⟩ "locked" = .ok (JSON.null, w1))
      ∧ (∃ w1, loadFromStorage brokenHost ⟨(), []⟩ "theme" = .ok (JSON.null, w1))
      ∧ (∃ w1, saveToStorage brokenHost ⟨(), []⟩ "theme" (JSON.str "dark") = .ok w1) :=
  ⟨rfl, rfl, rfl, rfl,
    (storage_never_raises brokenHost ⟨(), []⟩ "gone" JSON.null).2.2.1 rfl,
    (storage_never_raises brokenHost ⟨(), []⟩ "locked" JSON.null).2.2.2.1 _ rfl,
    (storage_never_raises brokenHost ⟨(), []⟩ "theme" JSON.null).2.2.2.2 _ _ rfl rfl,
    (storage_never_raises brokenHost ⟨(), []⟩ "theme" (JSON.str "dark")).1⟩

/-! ## `JSON.parse` reads back what `JSON.stringify` writes -/

theorem parseStringItems_cons (c : Char) (rest : List Char) :
    parseStringItems (c :: rest) =
    if c = '"' then some ([], rest)
    else if c = '\\' then
      match rest with
      | [] => none
      | e :: rest1 =>
        if e = 'u' then
          match rest1 with
          | h1 :: h2 :: h3 :: h4 :: rest2 =>
            match hex4 h1 h2 h3 h4 with
            | none => none
            | some n =>
              match parseStringItems rest2 with
              | none => none
              | some (items, r) => some (.unit n :: items, r)
          | _ => none
        else
          match unescape e with
          | none => none
          | some ch =>
            match parseStringItems rest1 with
            | none => none
            | some (items, r) => some (.char ch :: items, r)
    else if c.toNat < 32 then none
    else
      match parseStringItems rest with
      | none => none
      | some (items, r) => some (.char c :: items, r) := by
  rw [parseStringItems.eq_def]

theorem hex4_control : ∀ n, n < 32 →
    hex4 '0' '0' (hexChar (n / 16)) (hexChar (n % 16)) = some n := by
  decide

/-- An escaped control character is read back as that character. -/
theorem decodeItems_unit_cons (n : Nat) (hn : n < 32) (items : List StringItem) :
    decodeItems (.unit n :: items) = Char.ofNat n :: decodeItems items := by
  have h1 : ¬ (0xD800 ≤ n) := by omega
  cases items with
  | nil => simp [decodeItems, h1]
  | cons i rest =>
    cases i with
    | char c => simp [decodeItems, h1]
    | unit m => simp [decodeItems, h1]

theorem parseStringItems_quoteChar (c : Char) (tail : List Char) (items : List StringItem)
    (r : List Char) (h : parseStringItems tail = some (items, r)) :
    ∃ i, parseStringItems (quoteChar c ++ tail) = some (i :: items, r)
      ∧ decodeItems (i :: items) = c :: decodeItems items := by
  unfold quoteChar
  split
  · next hc => subst hc; exact ⟨.char '"', by simp [parseStringItems_cons, unescape, h], rfl⟩
  split
  · next hc => subst hc; exact ⟨.char '\\', by simp [parseStringItems_cons, unescape, h], rfl⟩
  split
  · next hc => subst hc; exact ⟨.char '\x08', by simp [parseStringItems_cons, unescape, h], rfl⟩
  split
  · next hc => subst hc; exact ⟨.char '\x0c', by simp [parseStringItems_cons, unescape, h], rfl⟩
  split
  · next hc => subst hc; exact ⟨.char '\n', by simp [parseStringItems_cons, unescape, h], rfl⟩
  split
  · next hc => subst hc; exact ⟨.char '\r', by simp [parseStringItems_cons, unescape, h], rfl⟩
  split
  · next hc => subst hc; exact ⟨.char '\t', by simp [parseStringItems_cons, unescape, h], rfl⟩
  split
  · next h1 h2 h3 h4 h5 h6 h7 hlt =>
    refine ⟨.unit c.toNat, ?_, ?_⟩
    · simp [parseStringItems_cons, hex4_control c.toNat hlt, h]
    · rw [decodeItems_unit_cons _ hlt, Char.ofNat_toNat]
  · next h1 h2 h3 h4 h5 h6 h7 hge =>
    refine ⟨.char c, ?_, rfl⟩
    simp [parseStringItems_cons, h1, h2, hge, h]

theorem parseStringItems_quoteChars (s rest : List Char) :
    ∃ items, parseStringItems (quoteChars s ++ '"' :: rest) = some (items, rest)
      ∧ decodeItems items = s := by
  induction s with
  | nil => exact ⟨[], by simp [quoteChars, parseStringItems_cons], rfl⟩
  | cons c cs ih =>
    obtain ⟨items, h1, h2⟩ := ih
    obtain ⟨i, h3, h4⟩ := parseStringItems_quoteChar c _ items rest h1
    refine ⟨i :: items, ?_, ?_⟩
    · simpa [quoteChars, List.append_assoc] using h3
    · rw [h4, h2]

theorem parseString_quote (s : String) (rest : List Char) :
    parseString (quoteChars s.data ++ '"' :: rest) = some (s, rest) := by
  obtain ⟨items, h1, h2⟩ := parseStringItems_quoteChars s.data rest
  simp [parseString, h1, h2]

theorem digitChar_toNat (d : Nat) (h : d < 10) : (digitChar d).toNat = 48 + d := by
  revert d
  decide

theorem isDigit_digitChar (d : Nat) (h : d < 10) : isDigit (digitChar d) = true := by
  simp [isDigit, digitChar_toNat d h]
  omega

theorem decimalAux_digits (fuel : Nat) :
    ∀ n, ∀ c ∈ decimalAux fuel n, isDigit c = true := by
  induction fuel with
  | zero => intro n c hc; simp [decimalAux] at hc
  | succ fuel ih =>
    intro n c hc
    simp only [decimalAux] at hc
    split at hc
    · next hlt =>
      simp at hc
      subst hc
      exact isDigit_digitChar n hlt
    · simp only [List.mem_append, List.mem_singleton] at hc
      rcases hc with hc | hc
      · exact ih _ c hc
      · subst hc
        exact isDigit_digitChar _ (Nat.mod_lt _ (by decide))

/-- Reading a run of digits that is followed by a non-digit. -/
theorem readDigits_append (xs rest : List Char) (hx : ∀ c ∈ xs, isDigit c = true)
    (hr : ∀ c ∈ rest.head?, isDigit c = false) :
    ∀ acc, readDigits acc (xs ++ rest)
      = (xs.foldl (fun a c => a * 10 + (c.toNat - 48)) acc, rest) := by
  induction xs with
  | nil =>
    intro acc
    cases rest with
    | nil => rfl
    | cons c cs =>
      have := hr c (by simp)
      simp [readDigits, this]
  | cons x xs ih =>
    intro acc
    have hxd := hx x (List.mem_cons_self _ _)
    simp only [List.cons_append, readDigits, hxd, if_true, List.foldl_cons]
    exact ih (fun c hc => hx c (List.mem_cons_of_mem _ hc)) _

theorem decimalAux_value (fuel : Nat) :
    ∀ n, n < fuel →
      (decimalAux fuel n).foldl (fun a c => a * 10 + (c.toNat - 48)) 0 = n := by
  induction fuel with
  | zero => intro n h; omega
  | succ fuel ih =>
    intro n h
    simp only [decimalAux]
    split
    · next hlt => simp [digitChar_toNat n hlt]
    · next hge =>
      have h10 : n % 10 < 10 := Nat.mod_lt _ (by decide)
      rw [List.foldl_append, ih (n / 10) (by omega)]
      simp [digitChar_toNat _ h10]
      omega

theorem decimalAux_head (fuel : Nat) :
    ∀ n, n < fuel → 0 < n →
      ∃ c tail, decimalAux fuel n = c :: tail ∧ c ≠ '0' := by
  induction fuel with
  | zero => intro n h; omega
  | succ fuel ih =>
    intro n h hpos
    simp only [decimalAux]
    split
    · next hlt =>
      refine ⟨digitChar n, [], rfl, ?_⟩
      intro hc
      have := congrArg Char.toNat hc
      rw [digitChar_toNat n hlt] at this
      simp at this
      omega
    · next hge =>
      obtain ⟨c, tail, h1, h2⟩ := ih (n / 10) (by omega) (by omega)
      exact ⟨c, tail ++ [digitChar (n % 10)], by simp [h1], h2⟩

theorem parseDigits_decimal (n : Nat) (rest : List Char)
    (hr : ∀ c ∈ rest.head?, isDigit c = false) :
    parseDigits (decimal n ++ rest) = some (n, rest) := by
  by_cases h0 : n = 0
  · subst h0
    simp [decimal, decimalAux, digitChar, parseDigits]
  · obtain ⟨c, tail, h1, h2⟩ := decimalAux_head (n + 1) n (by omega) (by omega)
    have hd := decimalAux_digits (n + 1) n
    have hv := decimalAux_value (n + 1) n (by omega)
    unfold decimal
    rw [h1] at hd hv ⊢
    have hc : isDigit c = true := hd c (List.mem_cons_self _ _)
    simp only [List.cons_append, parseDigits, h2, if_false, hc, if_true]
    rw [readDigits_append tail rest (fun x hx => hd x (List.mem_cons_of_mem _ hx)) hr]
    simp only [List.foldl_cons, Nat.zero_mul, Nat.zero_add] at hv
    rw [hv]

theorem decimal_head (n : Nat) : ∃ c tail, decimal n = c :: tail ∧ isDigit c = true := by
  have hd := decimalAux_digits (n + 1) n
  unfold decimal
  cases h : decimalAux (n + 1) n with
  | nil =>
    simp only [decimalAux] at h
    split at h <;> simp at h
  | cons c tail =>
    rw [h] at hd
    exact ⟨c, tail, rfl, hd c (List.mem_cons_self _ _)⟩

/-- A written number is read back when followed by nothing or by `,`, `]` or `}`. -/
theorem parseNumber_numberToString (n : Int) (rest : List Char)
    (hr : ∀ c ∈ rest.head?, c = ',' ∨ c = ']' ∨ c = '}') :
    parseNumber (numberToString n ++ rest) = some (n, rest) := by
  have hr1 : ∀ c ∈ rest.head?, isDigit c = false := by
    intro c hc
    rcases hr c hc with h | h | h <;> subst h <;> decide
  have hr2 : ∀ (m : Int),
      (match (some (m, rest) : Option (Int × List Char)) with
        | none => none
        | some (n, []) => some (n, [])
        | some (n, c :: r) =>
          if c = '.' || c = 'e' || c = 'E' then none else some (n, c :: r))
      = some (m, rest) := by
    intro m
    cases rest with
    | nil => rfl
    | cons c r =>
      have : ¬ (c = '.' || c = 'e' || c = 'E') = true := by
        rcases hr c (by simp) with h | h | h <;> subst h <;> decide
      simp [this]
  cases n with
  | ofNat m =>
    obtain ⟨c, tail, h1, h2⟩ := decimal_head m
    have hp := parseDigits_decimal m rest hr1
    have hne : c ≠ '-' := by
      intro hc; subst hc; revert h2; decide
    simp only [numberToString, parseNumber]
    rw [h1] at hp ⊢
    simp only [List.cons_append, hne, if_false] at hp ⊢
    rw [hp]
    exact hr2 _
  | negSucc m =>
    have hp := parseDigits_decimal (m + 1) rest hr1
    simp only [numberToString, parseNumber, List.cons_append, if_true, hp]
    have : (-((m + 1 : Nat) : Int)) = Int.negSucc m := by
      simp [Int.negSucc_eq]
    rw [this]
    exact hr2 _

theorem parseValue_succ (fuel : Nat) (cs : List Char) :
    parseValue (fuel + 1) cs =
    match skipWhitespace cs with
    | [] => none
    | c :: rest =>
      if c = 'n' then
        match expect ['u', 'l', 'l'] rest with
        | none => none
        | some r => some (.null, r)
      else if c = 't' then
        match expect ['r', 'u', 'e'] rest with
        | none => none
        | some r => some (.bool true, r)
      else if c = 'f' then
        match expect ['a', 'l', 's', 'e'] rest with
        | none => none
        | some r => some (.bool false, r)
      else if c = '"' then
        match parseString rest with
        | none => none
        | some (s, r) => some (.str s, r)
      else if c = '[' then
        match skipWhitespace rest with
        | [] => none
        | c1 :: r1 =>
          if c1 = ']' then some (.arr [], r1)
          else
            match parseElements fuel (c1 :: r1) with
            | none => none
            | some (items, r) => some (.arr items, r)
      else if c = '{' then
        match skipWhitespace rest with
        | [] => none
        | c1 :: r1 =>
          if c1 = '}' then some (.obj [], r1)
          else
            match parseMembers fuel (c1 :: r1) with
            | none => none
            | some (members, r) => some (.obj (buildObject members), r)
      else
        match parseNumber (c :: rest) with
        | none => none
        | some (n, r) => some (.num n, r) := by
  rw [parseValue]

theorem parseElements_succ (fuel : Nat) (cs : List Char) :
    parseElements (fuel + 1) cs =
    match parseValue fuel cs with
    | none => none
    | some (v, rest) =>
      match skipWhitespace rest with
      | [] => none
      | c :: r =>
        if c = ',' then
          match parseElements fuel r with
          | none => none
          | some (vs, r1) => some (v :: vs, r1)
        else if c = ']' then some ([v], r)
        else none := by
  rw [parseElements]

theorem parseMembers_succ (fuel : Nat) (cs : List Char) :
    parseMembers (fuel + 1) cs =
    match skipWhitespace cs with
    | [] => none
    | c :: rest =>
      if c = '"' then
        match parseString rest with
        | none => none
        | some (k, rest1) =>
          match skipWhitespace rest1 with
          | [] => none
          | c1 :: rest2 =>
            if c1 = ':' then
              match parseValue fuel rest2 with
              | none => none
              | some (v, rest3) =>
                match skipWhitespace rest3 with
                | [] => none
                | c3 :: rest4 =>
                  if c3 = ',' then
                    match parseMembers fuel rest4 with
                    | none => none
                    | some (ms, r) => some ((k, v) :: ms, r)
                  else if c3 = '}' then some ([(k, v)], rest4)
                  else none
            else none
      else none := by
  rw [parseMembers]

theorem skipWhitespace_cons (c : Char) (cs : List Char) (h : isWhitespace c = false) :
    skipWhitespace (c :: cs) = c :: cs := by
  simp [skipWhitespace, h]

theorem numberToString_head (n : Int) :
    ∃ c tail, numberToString n = c :: tail ∧ (isDigit c = true ∨ c = '-') := by
  cases n with
  | ofNat m =>
    obtain ⟨c, tail, h1, h2⟩ := decimal_head m
    exact ⟨c, tail, h1, Or.inl h2⟩
  | negSucc m => exact ⟨'-', _, rfl, Or.inr rfl⟩

theorem numberStart_ne (c : Char) (h : isDigit c = true ∨ c = '-') (d : Char)
    (hd : isDigit d = false) (hm : d ≠ '-') : c ≠ d := by
  intro hc
  subst hc
  rcases h with h | h
  · rw [h] at hd; exact Bool.noConfusion hd
  · exact hm h

theorem numberStart_not_whitespace (c : Char) (h : isDigit c = true ∨ c = '-') :
    isWhitespace c = false := by
  have h1 := numberStart_ne c h '\t' (by decide) (by decide)
  have h2 := numberStart_ne c h '\n' (by decide) (by decide)
  have h3 := numberStart_ne c h '\r' (by decide) (by decide)
  have h4 := numberStart_ne c h ' ' (by decide) (by decide)
  simp [isWhitespace, h1, h2, h3, h4]

theorem serialize_head (v : JSON) :
    ∃ c tail, serialize v = c :: tail ∧ isWhitespace c = false ∧ c ≠ ']' ∧ c ≠ '}' := by
  cases v with
  | null => exact ⟨'n', _, by rw [serialize], by decide, by decide, by decide⟩
  | bool b =>
    cases b
    · exact ⟨'f', _, by rw [serialize], by decide, by decide, by decide⟩
    · exact ⟨'t', _, by rw [serialize], by decide, by decide, by decide⟩
  | num n =>
    obtain ⟨c, tail, h1, h2⟩ := numberToString_head n
    exact ⟨c, tail, by rw [serialize, h1], numberStart_not_whitespace c h2,
      numberStart_ne c h2 ']' (by decide) (by decide),
      numberStart_ne c h2 '}' (by decide) (by decide)⟩
  | str s =>
    exact ⟨'"', quoteChars s.data ++ ['"'], by simp [serialize, quoteJSONString],
      by decide, by decide, by decide⟩
  | arr items =>
    exact ⟨'[', serializeItems items ++ [']'], by simp [serialize],
      by decide, by decide, by decide⟩
  | obj members =>
    exact ⟨'{', serializeMembers members ++ ['}'], by simp [serialize],
      by decide, by decide, by decide⟩

theorem serializeItems_head (v : JSON) (vs : List JSON) :
    ∃ c tail, serializeItems (v :: vs) = c :: tail ∧ isWhitespace c = false ∧ c ≠ ']' := by
  obtain ⟨c, tail, h1, h2, h3, _⟩ := serialize_head v
  cases vs with
  | nil => exact ⟨c, tail, by rw [serializeItems, h1], h2, h3⟩
  | cons w ws => exact ⟨c, _, by rw [serializeItems, h1]; rfl, h2, h3⟩

theorem assocSet_append_new {β : Type} (acc : List (String × β)) (k : String) (v : β)
    (h : k ∉ acc.map Prod.fst) : assocSet acc k v = acc ++ [(k, v)] := by
  induction acc with
  | nil => rfl
  | cons kv rest ih =>
    obtain ⟨k1, v1⟩ := kv
    simp only [List.map_cons, List.mem_cons, not_or] at h
    have hne : ¬ k1 = k := fun e => h.1 e.symm
    simp [assocSet, hne, ih h.2]

theorem foldl_assocSet_nodup (ms : List (String × JSON)) :
    ∀ acc : List (String × JSON), ((acc ++ ms).map Prod.fst).Nodup →
      ms.foldl (fun acc kv => assocSet acc kv.1 kv.2) acc = acc ++ ms := by
  induction ms with
  | nil => intro acc _; simp
  | cons kv rest ih =>
    intro acc h
    have hk : kv.1 ∉ acc.map Prod.fst := by
      simp only [List.map_append, List.map_cons] at h
      have := (List.nodup_append.mp h).2.2
      intro hmem
      exact this hmem (List.mem_cons_self _ _)
    rw [List.foldl_cons, assocSet_append_new acc kv.1 kv.2 hk, ih]
    · simp
    · simpa using h

theorem buildObject_nodup (ms : List (String × JSON)) (h : (ms.map Prod.fst).Nodup) :
    buildObject ms = ms := by
  have := foldl_assocSet_nodup ms [] (by simpa using h)
  simpa [buildObject] using this

theorem length_pos_serialize (v : JSON) : 0 < (serialize v).length := by
  obtain ⟨c, tail, h1, _⟩ := serialize_head v
  simp [h1]

mutual
theorem parseValue_serialize : ∀ (v : JSON) (fuel : Nat) (rest : List Char),
    (serialize v).length < fuel → (∀ c ∈ rest.head?, c = ',' ∨ c = ']' ∨ c = '}') →
    v.wellFormed = true → parseValue fuel (serialize v ++ rest) = some (v, rest)
  | .null, fuel, rest, hf, _, _ => by
    obtain ⟨f, rfl⟩ : ∃ f, fuel = f + 1 := ⟨fuel - 1, by omega⟩
    simp [parseValue_succ, serialize, skipWhitespace, isWhitespace, expect]
  | .bool true, fuel, rest, hf, _, _ => by
    obtain ⟨f, rfl⟩ : ∃ f, fuel = f + 1 := ⟨fuel - 1, by omega⟩
    simp [parseValue_succ, serialize, skipWhitespace, isWhitespace, expect]
  | .bool false, fuel, rest, hf, _, _ => by
    obtain ⟨f, rfl⟩ : ∃ f, fuel = f + 1 := ⟨fuel - 1, by omega⟩
    simp [parseValue_succ, serialize, skipWhitespace, isWhitespace, expect]
  | .num n, fuel, rest, hf, hr, _ => by
    obtain ⟨f, rfl⟩ : ∃ f, fuel = f + 1 := ⟨fuel - 1, by omega⟩
    obtain ⟨c, tail, h1, h2⟩ := numberToString_head n
    have hp := parseNumber_numberToString n rest hr
    rw [h1] at hp
    rw [parseValue_succ, serialize, h1, List.cons_append,
      skipWhitespace_cons c _ (numberStart_not_whitespace c h2)]
    simp only [numberStart_ne c h2 'n' (by decide) (by decide),
      numberStart_ne c h2 't' (by decide) (by decide),
      numberStart_ne c h2 'f' (by decide) (by decide),
      numberStart_ne c h2 '"' (by decide) (by decide),
      numberStart_ne c h2 '[' (by decide) (by decide),
      numberStart_ne c h2 '{' (by decide) (by decide), if_false]
    rw [← List.cons_append, hp]
  | .str s, fuel, rest, hf, _, _ => by
    obtain ⟨f, rfl⟩ : ∃ f, fuel = f + 1 := ⟨fuel - 1, by omega⟩
    have hp := parseString_quote s rest
    simp [parseValue_succ, serialize, quoteJSONString, skipWhitespace, isWhitespace, hp]
  | .arr [], fuel, rest, hf, _, _ => by
    obtain ⟨f, rfl⟩ : ∃ f, fuel = f + 1 := ⟨fuel - 1, by omega⟩
    simp [parseValue_succ, serialize, serializeItems, skipWhitespace, isWhitespace]
  | .arr (v :: vs), fuel, rest, hf, _, hw => by
    obtain ⟨f, rfl⟩ : ∃ f, fuel = f + 1 := ⟨fuel - 1, by omega⟩
    obtain ⟨c, tail, h1, h2, h3⟩ := serializeItems_head v vs
    have hq := parseElements_serializeItems (v :: vs) f rest (List.cons_ne_nil _ _)
      (by simp [serialize] at hf; omega) (by simpa [JSON.wellFormed] using hw)
    rw [h1] at hq
    simp only [List.cons_append] at hq
    have hb : isWhitespace '[' = false := by decide
    simp [parseValue_succ, serialize, skipWhitespace_cons, hb, h1, h2, h3, hq]
  | .obj [], fuel, rest, hf, _, _ => by
    obtain ⟨f, rfl⟩ : ∃ f, fuel = f + 1 := ⟨fuel - 1, by omega⟩
    simp [parseValue_succ, serialize, serializeMembers, skipWhitespace, isWhitespace]
  | .obj (m :: ms), fuel, rest, hf, _, hw => by
    obtain ⟨f, rfl⟩ : ∃ f, fuel = f + 1 := ⟨fuel - 1, by omega⟩
    simp only [JSON.wellFormed, Bool.and_eq_true, decide_eq_true_eq] at hw
    have hq := parseMembers_serializeMembers (m :: ms) f rest (List.cons_ne_nil _ _)
      (by simp [serialize] at hf; omega) hw.2
    obtain ⟨tail, h1⟩ : ∃ tail, serializeMembers (m :: ms) = '"' :: tail := by
      obtain ⟨k, v⟩ := m
      cases ms with
      | nil => exact ⟨_, by rw [serializeMembers, quoteJSONString]; rfl⟩
      | cons m2 ms2 => exact ⟨_, by rw [serializeMembers, quoteJSONString]; rfl⟩
    rw [h1] at hq
    simp only [List.cons_append] at hq
    simp [parseValue_succ, serialize, skipWhitespace, isWhitespace, h1, hq,
      buildObject_nodup (m :: ms) hw.1]
theorem parseElements_serializeItems : ∀ (vs : List JSON) (fuel : Nat) (rest : List Char),
    vs ≠ [] → (serializeItems vs).length + 1 < fuel → JSON.wellFormedItems vs = true →
    parseElements fuel (serializeItems vs ++ ']' :: rest) = some (vs, rest)
  | [], _, _, hne, _, _ => absurd rfl hne
  | [v], fuel, rest, _, hf, hw => by
    obtain ⟨f, rfl⟩ : ∃ f, fuel = f + 1 := ⟨fuel - 1, by omega⟩
    simp only [JSON.wellFormedItems, Bool.and_true] at hw
    have hp := parseValue_serialize v f (']' :: rest)
      (by simp [serializeItems] at hf; omega) (by simp) hw
    simp [parseElements_succ, serializeItems, hp, skipWhitespace, isWhitespace]
  | v :: w :: vs, fuel, rest, _, hf, hw => by
    obtain ⟨f, rfl⟩ : ∃ f, fuel = f + 1 := ⟨fuel - 1, by omega⟩
    simp only [JSON.wellFormedItems, Bool.and_eq_true] at hw
    have hlen := length_pos_serialize v
    simp only [serializeItems, List.length_append, List.length_cons] at hf
    have hp := parseValue_serialize v f (',' :: (serializeItems (w :: vs) ++ ']' :: rest))
      (by omega) (by simp) hw.1
    have hq := parseElements_serializeItems (w :: vs) f rest (List.cons_ne_nil _ _)
      (by omega) (by simpa [JSON.wellFormedItems] using hw.2)
    simp [parseElements_succ, serializeItems, hp, skipWhitespace, isWhitespace, hq]
theorem parseMembers_serializeMembers : ∀ (ms : List (String × JSON)) (fuel : Nat)
    (rest : List Char),
    ms ≠ [] → (serializeMembers ms).length + 1 < fuel → JSON.wellFormedMembers ms = true →
    parseMembers fuel (serializeMembers ms ++ '}' :: rest) = some (ms, rest)
  | [], _, _, hne, _, _ => absurd rfl hne
  | [(k, v)], fuel, rest, _, hf, hw => by
    obtain ⟨f, rfl⟩ : ∃ f, fuel = f + 1 := ⟨fuel - 1, by omega⟩
    simp only [JSON.wellFormedMembers, Bool.and_true] at hw
    simp only [serializeMembers, List.length_append, List.length_cons] at hf
    have hp := parseValue_serialize v f ('}' :: rest) (by omega) (by simp) hw
    have hs := parseString_quote k (':' :: (serialize v ++ '}' :: rest))
    simp [parseMembers_succ, serializeMembers, quoteJSONString, hs, hp, skipWhitespace,
      isWhitespace]
  | (k, v) :: m :: ms, fuel, rest, _, hf, hw => by
    obtain ⟨f, rfl⟩ : ∃ f, fuel = f + 1 := ⟨fuel - 1, by omega⟩
    simp only [JSON.wellFormedMembers, Bool.and_eq_true] at hw
    simp only [serializeMembers, List.length_append, List.length_cons] at hf
    have hp := parseValue_serialize v f (',' :: (serializeMembers (m :: ms) ++ '}' :: rest))
      (by omega) (by simp) hw.1
    have hq := parseMembers_serializeMembers (m :: ms) f rest (List.cons_ne_nil _ _)
      (by omega) (by simpa [JSON.wellFormedMembers] using hw.2)
    have hs := parseString_quote k
      (':' :: (serialize v ++ ',' :: (serializeMembers (m :: ms) ++ '}' :: rest)))
    simp [parseMembers_succ, serializeMembers, quoteJSONString, hs, hp, skipWhitespace,
      isWhitespace, hq]
end

/-! ## Saving then loading -/

theorem jsonParse_jsonStringify (v : JSON) (hv : v.wellFormed = true) :
    jsonParse (jsonStringify v) = .ok v := by
  have hp := parseValue_serialize v (2 * (serialize v).length + 2) [] (by omega) (by simp) hv
  simp only [List.append_nil] at hp
  simp [jsonParse, jsonStringify, String.length, hp, skipWhitespace]

theorem jsonStringify_ne_empty (v : JSON) : jsonStringify v ≠ "" := by
  intro h
  have h1 := congrArg String.length h
  have h2 := length_pos_serialize v
  simp [jsonStringify, String.length] at h1
  simp [h1] at h2

theorem saveToStorage_browser (w : World Storage) (key : String) (v : JSON) :
    saveToStorage browser w key v
      = .ok { w with storage := assocSet w.storage key (jsonStringify v) } := rfl

theorem loadFromStorage_browser_saved (w : World Storage) (key : String) (v : JSON)
    (hv : v.wellFormed = true) :
    loadFromStorage browser { w with storage := assocSet w.storage key (jsonStringify v) } key
      = .ok (v, { w with storage := assocSet w.storage key (jsonStringify v) }) := by
  simp [loadFromStorage, browser, lookup_assocSet_self, jsonStringify_ne_empty,
    jsonParse_jsonStringify v hv]

theorem loadFromStorage_browser_missing (w : World Storage) (key : String)
    (h : w.storage.lookup key = none) :
    loadFromStorage browser w key = .ok (JSON.null, w) := by
  simp [loadFromStorage, browser, h]

theorem savedThenLoaded_eq (w : World Storage) (key : String) (v : JSON)
    (hv : v.wellFormed = true) : savedThenLoaded w key v = some v := by
  simp [savedThenLoaded, saveToStorage_browser, loadFromStorage_browser_saved w key v hv]

theorem loaded_missing (w : World Storage) (key : String)
    (h : w.storage.lookup key = none) : loaded w key = some JSON.null := by
  simp [loaded, loadFromStorage_browser_missing w key h]

/-- C4: for every host (`JSON.stringify`, `JSON.parse` and `localStorage` are the
browser's), every key and every value `v` that is JSON-serialisable on it, that is,
`JSON.stringify(v)` is a text that `JSON.parse` reads back as `v` (whether `v` is falsy
plays no part: `null`, `false`, `0`, the empty string, `[]` and the empty object
included), the empty text not being JSON: when the storage does not fail (the write
succeeds and the read returns what was written), `saveToStorage(k, v)` returns normally
and `loadFromStorage(k)` executed after it returns `v`. -/
theorem save_then_load {σ V : Type} (h : Host σ V) (w : World σ) (key : String) (v : V)
    (text : String) (st : σ)
    (hser : h.stringify v = .ok (some text))
    (hpar : h.parse text = .ok v)
    (hemp : ∀ u, h.parse "" ≠ .ok u)
    (hset : h.setItem w.storage key text = .ok st)
    (hget : h.getItem st key = .ok (some text)) :
    saveToStorage h w key v = .ok { w with storage := st }
      ∧ loadFromStorage h { w with storage := st } key
        = .ok (v, { w with storage := st }) := by
  have hne : text ≠ "" := by
    intro he
    rw [he] at hpar
    exact hemp v hpar
  constructor
  · simp [saveToStorage, hser, toDOMString, hset]
  · simp [loadFromStorage, hget, hne, hpar]

theorem jsonParse_empty : jsonParse "" = .error .syntaxError := rfl

theorem save_then_load_witness :
    browser.stringify samplePrefs = .ok (some (jsonStringify samplePrefs))
      ∧ browser.parse (jsonStringify samplePrefs) = .ok samplePrefs
      ∧ saveToStorage browser ⟨[("theme", "\"dark\"")], []⟩ "prefs" samplePrefs
        = .ok ⟨assocSet [("theme", "\"dark\"")] "prefs" (jsonStringify samplePrefs), []⟩
      ∧ loadFromStorage browser
          ⟨assocSet [("theme", "\"dark\"")] "prefs" (jsonStringify samplePrefs), []⟩ "prefs"
        = .ok (samplePrefs,
            ⟨assocSet [("theme", "\"dark\"")] "prefs" (jsonStringify samplePrefs), []⟩) :=
  ⟨rfl, jsonParse_jsonStringify samplePrefs (by decide),
    save_then_load browser ⟨[("theme", "\"dark\"")], []⟩ "prefs" samplePrefs
      (jsonStringify samplePrefs)
      (assocSet [("theme", "\"dark\"")] "prefs" (jsonStringify samplePrefs)) rfl
      (jsonParse_jsonStringify samplePrefs (by decide))
      (fun u hu => Except.noConfusion (jsonParse_empty.symm.trans hu)) rfl
      (congrArg Except.ok (lookup_assocSet_self _ _ _))⟩

/-- C6, as stated, fails for a stored `null`: after `saveToStorage(k, null)`,
`loadFromStorage(k)` returns the same value, `null`, as it does for the key `k` missing
from an empty storage. -/
theorem stored_null_equals_absent :
    List.lookup "k" (World.mk ([] : Storage) []).storage = none
      ∧ JSON.null ∈ [JSON.null, JSON.bool false, JSON.num 0, JSON.str ""]
      ∧ savedThenLoaded ⟨[], []⟩ "k" JSON.null = some JSON.null
      ∧ loaded ⟨[], []⟩ "k" = some JSON.null
      ∧ savedThenLoaded ⟨[], []⟩ "k" JSON.null = loaded ⟨[], []⟩ "k" := by
  have h1 : savedThenLoaded ⟨[], []⟩ "k" JSON.null = some JSON.null :=
    savedThenLoaded_eq _ _ _ rfl
  have h2 : loaded ⟨[], []⟩ "k" = some JSON.null := loaded_missing _ _ rfl
  exact ⟨rfl, List.mem_cons_self _ _, h1, h2, h1.trans h2.symm⟩

/-- C6, amended: the absent sentinel is `null`. For a key missing from the storage
`loadFromStorage` returns `null`; for every key and every stored value `v` among `false`,
`0` and the empty string, `loadFromStorage` after `saveToStorage(k, v)` returns `v`,
which differs from the result for a missing key. -/
theorem stored_falsy_differs_from_absent (w w0 : World Storage) (key missing : String)
    (v : JSON) (hm : w0.storage.lookup missing = none)
    (hv : v ∈ [JSON.bool false, JSON.num 0, JSON.str ""]) :
    loaded w0 missing = some JSON.null
      ∧ savedThenLoaded w key v = some v
      ∧ savedThenLoaded w key v ≠ loaded w0 missing := by
  have hwf : v.wellFormed = true := by
    simp only [List.mem_cons, List.mem_singleton, List.not_mem_nil, or_false] at hv
    rcases hv with h | h | h <;> subst h <;> rfl
  have hne : v ≠ JSON.null := by
    simp only [List.mem_cons, List.mem_singleton, List.not_mem_nil, or_false] at hv
    rcases hv with h | h | h <;> subst h <;> exact fun e => JSON.noConfusion e
  refine ⟨loaded_missing w0 missing hm, savedThenLoaded_eq w key v hwf, ?_⟩
  rw [loaded_missing w0 missing hm, savedThenLoaded_eq w key v hwf]
  exact fun e => hne (Option.some.inj e)

theorem stored_falsy_differs_from_absent_witness :
    List.lookup "draft" (World.mk ([("theme", "\"dark\"")] : Storage) []).storage = none
      ∧ JSON.str "" ∈ [JSON.bool false, JSON.num 0, JSON.str ""]
      ∧ loaded ⟨[("theme", "\"dark\"")], []⟩ "draft" = some JSON.null
      ∧ savedThenLoaded ⟨[("theme", "\"dark\"")], []⟩ "draft" (JSON.str "")
        = some (JSON.str "")
      ∧ savedThenLoaded ⟨[("theme", "\"dark\"")], []⟩ "draft" (JSON.str "")
        ≠ loaded ⟨[("theme", "\"dark\"")], []⟩ "draft" :=
  ⟨rfl, by simp,
    stored_falsy_differs_from_absent ⟨[("theme", "\"dark\"")], []⟩
      ⟨[("theme", "\"dark\"")], []⟩ "draft" "draft" (JSON.str "") rfl (by simp)⟩

end SmartX
